import Mathlib

/-!
Verification development for the discovery-and-verification pipeline:
the agent control loop (`AgentLoop.run` / `AgentLoop._execute_tool`), the
structural page classifier (`page_classifier.py`), the URL canonicalizer
(`url_cleaner.py`), the verification gate (`AgentLoop._is_good_url`), the
final correctness pass (`AgentLoop._verify_product_urls`) and the output
sanitizer (`AgentLoop._sanitize_output`).

The Python sources are shallowly embedded: pure functions become Lean
functions; the mutable run state (fetched-URL set, caches, provenance maps)
is threaded explicitly; collaborator calls (LLM chat, web search, page fetch,
browser render, text extraction, SKU extraction, md5 hashing) are oracles
supplied in an environment record, with a raised Python exception modelled as
`Except.error`.  Python `dict`s are insertion-ordered association lists.
CPython library functions that the sources call (`urllib.parse`, `re`,
`str.replace`, `str.rstrip`) are modelled byte-for-byte on their documented
behaviour for the inputs these claims range over; Unicode corner cases
(non-ASCII whitespace classes, IPv6 bracket validation errors raised by
`urlsplit`) are noted where they are not modelled.
-/

namespace Agi

/-! ## Python string primitives -/

/-- ASCII whitespace, as matched by Python's `str.strip` / regex `\s`
(non-ASCII Unicode whitespace is not modelled). -/
def pySpace (c : Char) : Bool :=
  c = ' ' ∨ c = '\t' ∨ c = '\n' ∨ c = '\r' ∨ c = '\x0b' ∨ c = '\x0c'

/-- Python `str.lower` (ASCII case mapping). -/
def pyLower (s : String) : String := String.mk (s.data.map Char.toLower)

/-- Python `str.strip()` with no argument: remove leading and trailing whitespace. -/
def pyStrip (s : String) : String :=
  String.mk (((s.data.dropWhile pySpace).reverse.dropWhile pySpace).reverse)

/-- Python `str.rstrip(chars)`: remove trailing characters drawn from `set`. -/
def pyRstrip (s : List Char) (set : List Char) : List Char :=
  (s.reverse.dropWhile (fun c => set.contains c)).reverse

/-- Python `sub in s` on character lists (substring containment). -/
def strContains (s sub : List Char) : Bool :=
  match s with
  | [] => sub.isEmpty
  | _ :: tail => sub.isPrefixOf s || strContains tail sub

/-- Python `sub in s` on strings. -/
def pyContains (s sub : String) : Bool := strContains s.data sub.data

/-- Case-insensitive containment: `sub.lower() in s.lower()`. -/
def containsCI (s sub : String) : Bool := pyContains (pyLower s) (pyLower sub)

/-- Python `s.startswith(pre)` (structural, kernel-computable). -/
def startsWithS (s pre : String) : Bool := pre.data.isPrefixOf s.data

/-- Python `s.split(sep)` for a one-character separator (e.g. `'&'`, `'/'`):
`""` splits to `[""]`, like Python. -/
def splitOnChar (sep : Char) : List Char → List (List Char)
  | [] => [[]]
  | x :: xs =>
    if x = sep then [] :: splitOnChar sep xs
    else
      match splitOnChar sep xs with
      | h :: t => (x :: h) :: t
      | [] => [[x]]

/-- Python `sep.join(parts)` (structural, kernel-computable). -/
def joinSep (sep : String) : List String → String
  | [] => ""
  | [x] => x
  | x :: xs => x ++ sep ++ joinSep sep xs

/-! ## `urllib.parse` model

Mirrors CPython 3.11 `urlsplit` / `urlparse` / `urlunsplit` / `urlunparse`
/ `parse_qsl` / `parse_qs` / `quote_plus` / `unquote_plus` / `urlencode`.
`urlsplit`'s `ValueError` on unbalanced IPv6 brackets and `_checknetloc`'s
Unicode checks are not modelled (no claim exercises them). -/

/-- Result of `urllib.parse.urlparse`: `(scheme, netloc, path, params, query, fragment)`. -/
structure ParseResult where
  scheme : String
  netloc : String
  path : String
  params : String
  query : String
  fragment : String
deriving DecidableEq, Repr

/-- Characters allowed in a URL scheme after the first (CPython `scheme_chars`). -/
def schemeChar (c : Char) : Bool :=
  c.isAlpha ∨ c.isDigit ∨ c = '+' ∨ c = '-' ∨ c = '.'

/-- Split `l` at the first occurrence of `c`: `(before, after)` without `c` itself. -/
def splitFirst (c : Char) (l : List Char) : Option (List Char × List Char) :=
  match l.findIdx? (· = c) with
  | none => none
  | some i => some (l.take i, l.drop (i + 1))

/-- CPython `urlsplit` (with a default scheme, as used by `urljoin`). -/
def pyUrlsplitL (url0 : List Char) (defaultScheme : String) :
    String × String × List Char × String × String :=
  -- CPython removes the unsafe bytes "\t\r\n" from the URL first.
  let url := url0.filter (fun c => ¬(c = '\t' ∨ c = '\r' ∨ c = '\n'))
  -- scheme: a leading ASCII letter, scheme characters up to the first ':'
  let schemeSplit :=
    match url.findIdx? (· = ':') with
    | none => none
    | some i =>
      if 0 < i ∧ (url.headD ' ').isAlpha ∧ (url.take i).all schemeChar then
        some (String.mk ((url.take i).map Char.toLower), url.drop (i + 1))
      else none
  let (scheme, rest) :=
    match schemeSplit with
    | some p => p
    | none => (defaultScheme, url)
  -- netloc: after a leading "//", up to the first of '/', '?', '#'
  let (netloc, rest) :=
    if ['/', '/'].isPrefixOf rest then
      let body := rest.drop 2
      let nl := body.takeWhile (fun c => ¬(c = '/' ∨ c = '?' ∨ c = '#'))
      (String.mk nl, body.drop nl.length)
    else ("", rest)
  -- fragment: split at the first '#'
  let (rest, fragment) :=
    match splitFirst '#' rest with
    | some (a, b) => (a, String.mk b)
    | none => (rest, "")
  -- query: split at the first '?'
  let (rest, query) :=
    match splitFirst '?' rest with
    | some (a, b) => (a, String.mk b)
    | none => (rest, "")
  (scheme, netloc, rest, query, fragment)

/-- CPython `_splitparams`: split `;parameters` off the last path segment. -/
def splitParams (p : List Char) : List Char × String :=
  match (p.reverse.findIdx? (· = '/')) with
  | some k =>
    -- index of the last '/': search for ';' only in the final segment
    let r := p.length - 1 - k
    match (p.drop r).findIdx? (· = ';') with
    | none => (p, "")
    | some j => (p.take (r + j), String.mk (p.drop (r + j + 1)))
  | none =>
    match splitFirst ';' p with
    | some (a, b) => (a, String.mk b)
    | none => (p, "")

/-- CPython `urlparse` (scheme, netloc, path, params, query, fragment). -/
def pyUrlparseD (url : String) (defaultScheme : String) : ParseResult :=
  let (scheme, netloc, rest, query, fragment) := pyUrlsplitL url.data defaultScheme
  let (path, params) :=
    if rest.contains ';' then splitParams rest else (rest, "")
  { scheme := scheme, netloc := netloc, path := String.mk path,
    params := params, query := query, fragment := fragment }

/-- CPython `urlparse` with the usual empty default scheme. -/
def pyUrlparse (url : String) : ParseResult := pyUrlparseD url ""

/-- CPython `urlunsplit` on `(scheme, netloc, url, query, fragment)`. -/
def pyUrlunsplit (scheme netloc url query fragment : String) : String :=
  let url :=
    if netloc ≠ "" ∨ (url ≠ "" ∧ startsWithS url "//") then
      let url := if url ≠ "" ∧ ¬ startsWithS url "/" then "/" ++ url else url
      "//" ++ netloc ++ url
    else url
  let url := if scheme ≠ "" then scheme ++ ":" ++ url else url
  let url := if query ≠ "" then url ++ "?" ++ query else url
  if fragment ≠ "" then url ++ "#" ++ fragment else url

/-- CPython `urlunparse`. -/
def pyUrlunparse (p : ParseResult) : String :=
  let url := if p.params ≠ "" then p.path ++ ";" ++ p.params else p.path
  pyUrlunsplit p.scheme p.netloc url p.query p.fragment

/-! ### Percent-encoding (`quote_plus` / `unquote_plus`) -/

/-- Hex digit value. -/
def hexVal (c : Char) : Option Nat :=
  if '0' ≤ c ∧ c ≤ '9' then some (c.toNat - '0'.toNat)
  else if 'a' ≤ c ∧ c ≤ 'f' then some (c.toNat - 'a'.toNat + 10)
  else if 'A' ≤ c ∧ c ≤ 'F' then some (c.toNat - 'A'.toNat + 10)
  else none

/-- Uppercase hex digits of a byte, as `%XX` (CPython `quote` uses uppercase). -/
def hexByte (b : Nat) : List Char :=
  let d : Nat → Char := fun n => if n < 10 then Char.ofNat ('0'.toNat + n)
                                 else Char.ofNat ('A'.toNat + (n - 10))
  ['%', d (b / 16 % 16), d (b % 16)]

/-- UTF-8 encoding of one character (code points below `0x110000`). -/
def utf8Enc (c : Char) : List Nat :=
  let n := c.toNat
  if n < 0x80 then [n]
  else if n < 0x800 then [0xC0 + n / 64, 0x80 + n % 64]
  else if n < 0x10000 then [0xE0 + n / 4096, 0x80 + n / 64 % 64, 0x80 + n % 64]
  else [0xF0 + n / 262144, 0x80 + n / 4096 % 64, 0x80 + n / 64 % 64, 0x80 + n % 64]

/-- CPython `always_safe` characters left unencoded by `quote` with `safe=''`. -/
def alwaysSafe (c : Char) : Bool :=
  c.isAlphanum ∨ c = '_' ∨ c = '.' ∨ c = '-' ∨ c = '~'

/-- CPython `quote_plus(s, safe='')`: space becomes `+`, safe characters stay,
everything else is percent-encoded per UTF-8 byte. -/
def quotePlus (s : String) : String :=
  String.mk (s.data.foldr (fun c acc =>
    if c = ' ' then '+' :: acc
    else if alwaysSafe c then c :: acc
    else (utf8Enc c).foldr (fun b a => hexByte b ++ a) acc) [])

/-- One token of CPython `unquote`'s intermediate byte stream: a byte from a
literal ASCII character or a valid `%XX` escape, or a non-ASCII character
passed through unchanged. -/
inductive QTok where
  | byte (b : Nat)
  | chr (c : Char)
deriving Repr

/-- Tokenize for `unquote`: `%XX` with two hex digits yields that byte, a bare
`%` stays literal, ASCII characters become their byte, others pass through. -/
def unquoteTokens : List Char → List QTok
  | [] => []
  | '%' :: a :: b :: rest =>
    match hexVal a, hexVal b with
    | some ha, some hb => .byte (16 * ha + hb) :: unquoteTokens rest
    | _, _ => .chr '%' :: unquoteTokens (a :: b :: rest)
  | '%' :: rest => .chr '%' :: unquoteTokens rest
  | c :: rest => (if c.toNat < 128 then .byte c.toNat else .chr c) :: unquoteTokens rest

/-- Whether a byte is a UTF-8 continuation byte. -/
def utf8Cont (b : Nat) : Bool := 0x80 ≤ b ∧ b < 0xC0

/-- UTF-8 decoding with `errors='replace'` (U+FFFD for invalid sequences,
consuming the maximal valid subpart, as CPython's decoder does). -/
def utf8Dec : List Nat → List Char
  | [] => []
  | b :: rest =>
    if b < 0x80 then Char.ofNat b :: utf8Dec rest
    else if 0xC2 ≤ b ∧ b ≤ 0xDF then
      match rest[0]? with
      | some b2 =>
        if utf8Cont b2 then
          Char.ofNat ((b - 0xC0) * 64 + (b2 - 0x80)) :: utf8Dec (rest.drop 1)
        else '�' :: utf8Dec rest
      | none => ['�']
    else if 0xE0 ≤ b ∧ b ≤ 0xEF then
      match rest[0]? with
      | some b2 =>
        let lo := if b = 0xE0 then 0xA0 else 0x80
        let hi := if b = 0xED then 0x9F else 0xBF
        if lo ≤ b2 ∧ b2 ≤ hi then
          match rest[1]? with
          | some b3 =>
            if utf8Cont b3 then
              Char.ofNat ((b - 0xE0) * 4096 + (b2 - 0x80) * 64 + (b3 - 0x80)) ::
                utf8Dec (rest.drop 2)
            else '�' :: utf8Dec (rest.drop 1)
          | none => ['�']
        else '�' :: utf8Dec rest
      | none => ['�']
    else if 0xF0 ≤ b ∧ b ≤ 0xF4 then
      match rest[0]? with
      | some b2 =>
        let lo := if b = 0xF0 then 0x90 else 0x80
        let hi := if b = 0xF4 then 0x8F else 0xBF
        if lo ≤ b2 ∧ b2 ≤ hi then
          match rest[1]? with
          | some b3 =>
            if utf8Cont b3 then
              match rest[2]? with
              | some b4 =>
                if utf8Cont b4 then
                  Char.ofNat ((b - 0xF0) * 262144 + (b2 - 0x80) * 4096 +
                    (b3 - 0x80) * 64 + (b4 - 0x80)) :: utf8Dec (rest.drop 3)
                else '�' :: utf8Dec (rest.drop 2)
              | none => ['�']
            else '�' :: utf8Dec (rest.drop 1)
          | none => ['�']
        else '�' :: utf8Dec rest
      | none => ['�']
    else '�' :: utf8Dec rest
termination_by l => l.length
decreasing_by all_goals simp [List.length_drop] <;> omega

/-- Whether a token is a byte token. -/
def QTok.isByte : QTok → Bool
  | .byte _ => true
  | .chr _ => false

/-- The byte of a byte token. -/
def QTok.byteVal : QTok → Option Nat
  | .byte b => some b
  | .chr _ => none

/-- Decode a token stream: maximal byte runs go through the UTF-8 decoder,
pass-through characters are kept. -/
def decodeQToks : List QTok → List Char
  | [] => []
  | .chr c :: rest => c :: decodeQToks rest
  | .byte b :: rest =>
    let run := (QTok.byte b :: rest).takeWhile QTok.isByte
    utf8Dec (run.filterMap QTok.byteVal) ++ decodeQToks (rest.drop (run.length - 1))
termination_by toks => toks.length
decreasing_by
  · simp
  · simp [List.length_drop]; omega

/-- CPython `unquote_plus` (`+` to space, then percent-decode). -/
def unquotePlus (s : String) : String :=
  String.mk (decodeQToks (unquoteTokens (s.data.map (fun c => if c = '+' then ' ' else c))))

/-- CPython `parse_qsl(qs, keep_blank_values=True)` (separator `'&'`). -/
def parseQsl (qs : String) : List (String × String) :=
  ((splitOnChar (Char.ofNat 38) qs.data).map String.mk).filterMap (fun nameValue =>
    if nameValue = "" then none
    else
      match splitFirst '=' nameValue.data with
      | some (n, v) => some (unquotePlus (String.mk n), unquotePlus (String.mk v))
      | none => some (unquotePlus nameValue, ""))

/-- Append a value to an insertion-ordered multi-dict (CPython `parse_qs`
accumulation). -/
def assocAppend : List (String × List String) → String → String → List (String × List String)
  | [], k, v => [(k, [v])]
  | (k', vs) :: rest, k, v =>
    if k' = k then (k', vs ++ [v]) :: rest else (k', vs) :: assocAppend rest k v

/-- CPython `parse_qs(qs, keep_blank_values=True)` as an insertion-ordered
association list. -/
def parseQs (qs : String) : List (String × List String) :=
  (parseQsl qs).foldl (fun acc kv => assocAppend acc kv.1 kv.2) []

/-- CPython `urlencode(params, doseq=True)` with `quote_plus`. -/
def urlencodeDoseq (params : List (String × List String)) : String :=
  joinSep "&"
    (params.foldr (fun kv acc =>
      kv.2.map (fun v => quotePlus kv.1 ++ "=" ++ quotePlus v) ++ acc) [])

/-! ## `url_cleaner.py` -/

/-- Tracking parameter names (`url_cleaner.TRACKING_PARAMS`). -/
def TRACKING_PARAMS : List String :=
  ["utm_source", "utm_medium", "utm_campaign", "utm_term", "utm_content",
   "gclid", "fbclid", "msclkid", "twclid", "li_fat_id",
   "_ga", "_gid", "ref", "source", "affiliate_id"]

/-- The tracking-key test inside `clean_url`'s loop. -/
def isTrackingKey (keyLower : String) : Bool :=
  TRACKING_PARAMS.contains keyLower ∨
  startsWithS keyLower "utm_" ∨
  startsWithS keyLower "_ga" ∨
  keyLower ∈ ["gclid", "fbclid", "msclkid", "twclid"]

/-- `url_cleaner.clean_url`: drop the fragment and, when `removeTracking`,
re-encode the query with tracking parameters removed. -/
def clean_url (url : String) (removeTracking : Bool := true) : String :=
  if url = "" then url
  else
    let parsed := pyUrlparse url
    if ¬ removeTracking ∨ parsed.query = "" then
      pyUrlunparse { parsed with fragment := "" }
    else
      let queryParams := parseQs parsed.query
      let cleanedParams := queryParams.filter (fun kv => ¬ isTrackingKey (pyLower kv.1))
      let cleanedQuery := if cleanedParams ≠ [] then urlencodeDoseq cleanedParams else ""
      pyUrlunparse { parsed with query := cleanedQuery, fragment := "" }

/-! ## Page verdicts and the verification gate -/

/-- `page_classifier.PageVerdict`, the closed six-variant enum. -/
inductive PageVerdict where
  | product
  | listing_with_products
  | listing_empty
  | blocked
  | generic
  | error
deriving DecidableEq, Repr

/-- The string value of a verdict (`PageVerdict` derives from `str, Enum`). -/
def PageVerdict.val : PageVerdict → String
  | .product => "product"
  | .listing_with_products => "listing_with_products"
  | .listing_empty => "listing_empty"
  | .blocked => "blocked"
  | .generic => "generic"
  | .error => "error"

/-- `PageVerdict(s)` with the `except (ValueError, TypeError)` fallback to
`ERROR` used at every call site in `_execute_tool`. -/
def parseVerdict (s : String) : PageVerdict :=
  if s = "product" then .product
  else if s = "listing_with_products" then .listing_with_products
  else if s = "listing_empty" then .listing_empty
  else if s = "blocked" then .blocked
  else if s = "generic" then .generic
  else if s = "error" then .error
  else .error

/-- The generic-root path list shared by `_is_good_url` and `classify_page`. -/
def genericPaths : List String := ["/", "/home", "/index", "/search", "/category"]

/-- `any(path_lower == gp or path_lower.startswith(gp + "/") for gp in generic_paths)`. -/
def isGenericPath (pathLower : String) : Bool :=
  genericPaths.any (fun gp => pathLower = gp ∨ startsWithS pathLower (gp ++ "/"))

/-- `AgentLoop._is_good_url` (the `classification` argument is unused in the
source, marked `noqa: ARG002`; it is omitted here). -/
def is_good_url (status : Nat) (finalUrl : String) (verdict : PageVerdict) : Bool :=
  if ¬ (200 ≤ status ∧ status < 300) then false
  else
    let parsed := pyUrlparse finalUrl
    let pathLower := pyLower parsed.path
    if isGenericPath pathLower ∧ ¬ (verdict = .product ∨ verdict = .listing_with_products) then
      false
    else if verdict = .blocked ∨ verdict = .listing_empty ∨ verdict = .generic ∨
        verdict = .error then
      false
    else if verdict = .product ∨ verdict = .listing_with_products then
      true
    else
      false

/-! ## The sanitizer's regex and `str.replace` -/

/-- The character class `[^\s<>"'\)]` of the sanitizer's URL pattern. -/
def urlChar (c : Char) : Bool :=
  ¬ (pySpace c ∨ c = '<' ∨ c = '>' ∨ c = '"' ∨ c = '\'' ∨ c = ')')

/-- Length matched by `https?://` at the head of `s` (greedy optional `s`). -/
def schemeLenAt (s : List Char) : Nat :=
  if "https://".data.isPrefixOf s then 8
  else if "http://".data.isPrefixOf s then 7
  else 0

/-- The scanning loop of `re.findall(r'https?://[^\s<>"\'\)]+', answer)`:
the leftmost, greedy, non-overlapping matches, in order.  `fuel` bounds the
number of scanning steps; with `fuel ≥ length` it never runs out, since each
step consumes at least one character (the wrapper `findUrls` passes the
length, making the function structurally recursive and kernel-computable). -/
def findUrlsFuel : Nat → List Char → List (List Char)
  | 0, _ => []
  | _, [] => []
  | fuel + 1, c :: cs =>
    match schemeLenAt (c :: cs) with
    | 0 => findUrlsFuel fuel cs
    | k0 + 1 =>
      let rest := (c :: cs).drop (k0 + 1)
      let run := rest.takeWhile urlChar
      if run.isEmpty then findUrlsFuel fuel cs
      else ((c :: cs).take (k0 + 1) ++ run) :: findUrlsFuel fuel (rest.drop run.length)

/-- `re.findall(r'https?://[^\s<>"\'\)]+', answer)`. -/
def findUrls (l : List Char) : List (List Char) := findUrlsFuel l.length l

/-- The scanning loop of Python `s.replace(old, new)`: replace every
non-overlapping occurrence of `old`, scanning left to right (for the
sanitizer `old` is never empty; an empty `old`, where Python would insert
`new` between characters, is treated as a no-op here).  As with
`findUrlsFuel`, `fuel ≥ length` suffices. -/
def replaceFuel : Nat → List Char → List Char → List Char → List Char
  | 0, s, _, _ => s
  | _, [], _, _ => []
  | fuel + 1, c :: cs, [], new => c :: replaceFuel fuel cs [] new
  | fuel + 1, c :: cs, o :: os, new =>
    if (o :: os).isPrefixOf (c :: cs) then
      new ++ replaceFuel fuel ((c :: cs).drop (o :: os).length) (o :: os) new
    else c :: replaceFuel fuel cs (o :: os) new

/-- Python `s.replace(old, new)`. -/
def replaceL (s old new : List Char) : List Char := replaceFuel s.length s old new

/-! ## `AgentLoop._sanitize_output`

`verified_url_set = set(verified_urls.keys())` is iterated by Python in
unspecified hash order; it is modelled as the insertion-ordered key list of
the `verified` dict, fixing one deterministic order. -/

/-- The replacement marker for unverifiable URLs. -/
def REMOVED_MARKER : String := "[URL removed - not verified]"

/-- The body of the sanitizer's `for url in urls_found` loop for one URL. -/
def sanitizeStep (verifiedKeys : List String) (answer : List Char) (url : List Char) :
    List Char :=
  let normalized := clean_url (String.mk (pyRstrip url ".,;!?)".data)) true
  if verifiedKeys.contains normalized then answer
  else
    let domain := (pyUrlparse normalized).netloc
    match verifiedKeys.find? (fun v => (pyUrlparse v).netloc = domain) with
    | some replacement => replaceL answer url replacement.data
    | none => replaceL answer url REMOVED_MARKER.data

/-- `AgentLoop._sanitize_output`: find all URL-shaped substrings once, then
rewrite the answer left to right. -/
def sanitize_output (answer : String) (verifiedKeys : List String) : String :=
  String.mk ((findUrls answer.data).foldl (sanitizeStep verifiedKeys) answer.data)

/-! ## JSON values (results of `json.loads` on JSON-LD scripts) -/

/-- A parsed JSON document (floats are not needed by the classifier and are
not modelled). -/
inductive Json where
  | null
  | bool (b : Bool)
  | num (n : Int)
  | str (s : String)
  | arr (elems : List Json)
  | obj (entries : List (String × Json))
deriving Repr

/-- Python `dict.get` on a JSON object: later duplicate keys win, as in
`json.loads`. -/
def Json.dGet : Json → String → Option Json
  | .obj entries, k => entries.foldl (fun acc p => if p.1 = k then some p.2 else acc) none
  | _, _ => none

/-- `isinstance(data, dict)`. -/
def Json.isDict : Json → Bool
  | .obj _ => true
  | _ => false

/-- Python `x == "lit"` on an optional JSON value. -/
def Json.isStrEq : Option Json → String → Bool
  | some (.str s), t => s = t
  | _, _ => false

/-! ## DOM abstraction

The classifier reads pages through BeautifulSoup queries.  `HtmlDoc` records
exactly the query results the classifier consumes: parsed JSON-LD script
contents, `itemtype` attribute values, anchors with `href`, form/div elements
with their `action`/`id`/`class` attributes, presence of a meta-refresh tag,
and the `<script>` tag count.  An empty `html` string is represented by
`none`.  BeautifulSoup's `class_` regex matching is modelled as matching each
individual class token. -/

/-- An `<a href=...>` element: `href`, `class` tokens, `get_text(strip=True)`. -/
structure LinkTag where
  href : String
  classes : List String
  text : String
deriving Repr, DecidableEq

/-- A `<form>` or `<div>` element with the attributes the classifier reads
(`action` and `id` are only present on forms; empty for divs). -/
structure FormDivTag where
  isForm : Bool
  action : String
  idAttr : String
  classes : List String
deriving Repr, DecidableEq

/-- The DOM queries consumed by `page_classifier` (see section comment). -/
structure HtmlDoc where
  jsonLdScripts : List (Option Json)
  itemtypeAttrs : List String
  links : List LinkTag
  formsAndDivs : List FormDivTag
  metaRefresh : Bool
  scriptCount : Nat
deriving Repr

/-! ## Regex matchers used by the classifier

Each `re.search` call in `page_classifier.py` is hand-compiled to an
executable matcher.  `anySuffix p s` is `re.search` existence: the pattern
matches starting at some position.  `atDollar s` is Python's `$`: the end of
the subject or the position just before a single trailing newline. -/

/-- The pattern matches at the start of some suffix (`re.search` existence). -/
def anySuffix (p : List Char → Bool) : List Char → Bool
  | [] => p []
  | c :: cs => p (c :: cs) || anySuffix p cs

/-- Python's `$` anchor at the suffix `s`. -/
def atDollar (s : List Char) : Bool := s = [] ∨ s = ['\n']

/-- `re.search(r"-\d+\.html", s)`. -/
def matchDashNumHtml (s : List Char) : Bool :=
  anySuffix (fun t =>
    match t with
    | '-' :: r =>
      let d := r.takeWhile Char.isDigit
      !d.isEmpty && ".html".data.isPrefixOf (r.drop d.length)
    | _ => false) s

/-- `re.search(r"/\d+$", s)`. -/
def matchSlashNumEnd (s : List Char) : Bool :=
  anySuffix (fun t =>
    match t with
    | '/' :: r =>
      let d := r.takeWhile Char.isDigit
      !d.isEmpty && atDollar (r.drop d.length)
    | _ => false) s

/-- The `product_link_patterns` test of `_detect_products`, applied to the
lower-cased href. -/
def matchesProductLinkPatterns (hrefLower : List Char) : Bool :=
  strContains hrefLower "/product/".data ||
  strContains hrefLower "/p/".data ||
  strContains hrefLower "/item/".data ||
  strContains hrefLower "/detail/".data ||
  strContains hrefLower "/buy/".data ||
  matchDashNumHtml hrefLower ||
  matchSlashNumEnd hrefLower

/-- The literal alternatives of the price pattern; the bare `$` inside the
alternation group is Python's end anchor, not a dollar sign. -/
def CURRENCY_WORDS : List (List Char) :=
  ["usd".data, "eur".data, "bgn".data, "uah".data, "rub".data,
   "₴".data, "€".data, "£".data]

/-- The closing alternation `(usd|eur|bgn|uah|rub|₴|€|$|£)` at a position. -/
def priceAlt (s : List Char) : Bool :=
  CURRENCY_WORDS.any (fun w => w.isPrefixOf s) || atDollar s

/-- `re.search(r"[\d,]+\.?\d*\s*(usd|eur|bgn|uah|rub|₴|€|$|£)", textLower)`. -/
def priceRegexSearch (textLower : List Char) : Bool :=
  anySuffix (fun s =>
    let run := s.takeWhile (fun c => c.isDigit || c = ',')
    !run.isEmpty &&
      (let r1 := s.drop run.length
       let r2 := match r1 with
                 | '.' :: r => r
                 | r => r
       let r3 := r2.drop (r2.takeWhile Char.isDigit).length
       priceAlt (r3.dropWhile pySpace))) textLower

/-! ## `page_classifier._detect_products` -/

/-- One step of the JSON-LD counting loop: a script whose parsed value is a
dict with `@type == "Product"` increments the count.  The source's
`elif isinstance(data, list)` arm sits inside the `isinstance(data, dict)`
branch and is therefore unreachable; a top-level JSON array contributes
nothing, and a script that failed `json.loads` (`none`) is skipped. -/
def jsonLdStep (n : Nat) (s : Option Json) : Nat :=
  match s with
  | some data =>
    if data.isDict then
      if Json.isStrEq (data.dGet "@type") "Product" then n + 1 else n
    else n
  | none => n

/-- `json_ld_count` of `_detect_products` step 1. -/
def jsonLdProductCount (scripts : List (Option Json)) : Nat :=
  scripts.foldl jsonLdStep 0

/-- The signal record returned by `_detect_products`. -/
structure ProductSignals where
  count : Nat
  json_ld_count : Nat
  microdata_count : Nat
  product_links_count : Nat
  tags : List String
deriving Repr, DecidableEq

/-- `_detect_products` on an empty page. -/
def emptySignals : ProductSignals := ⟨0, 0, 0, 0, []⟩

/-- The per-link test of heuristic source 3 (pattern, then class, then price;
an `elif` chain, so each link is counted at most once). -/
def productLinkTest (link : LinkTag) : Bool :=
  link.href ≠ "" &&
    (matchesProductLinkPatterns (pyLower link.href).data ||
     ["product", "item", "card"].any (fun cls => link.classes.contains cls) ||
     priceRegexSearch (pyLower link.text).data)

/-- `page_classifier._detect_products` (the `text` and `url` parameters are
unused in the source body). -/
def detect_products (doc : Option HtmlDoc) (_text : String) (_url : String) : ProductSignals :=
  match doc with
  | none => emptySignals
  | some d =>
    let jsonLd := jsonLdProductCount d.jsonLdScripts
    let micro := (d.itemtypeAttrs.filter (fun a => containsCI a "Product")).length
    let productLinks := (d.links.filter productLinkTest).length
    let count :=
      if jsonLd > 0 ∨ micro > 0 then max jsonLd micro
      else if productLinks ≥ 3 then productLinks
      else if productLinks > 0 then 1
      else 0
    { count := count, json_ld_count := jsonLd, microdata_count := micro,
      product_links_count := productLinks,
      tags := List.replicate jsonLd "json_ld_product" ++
        (if micro > 0 then ["microdata_product"] else []) ++
        (if productLinks > 0 then ["product_links"] else []) }

/-- `page_classifier._has_product_signals`. -/
def has_product_signals (doc : Option HtmlDoc) (text : String) : Bool :=
  (detect_products doc text "").count > 0

/-! ## `page_classifier._detect_blocked` -/

/-- The class-name words of the blocking-elements regex. -/
def BLOCKING_CLASS_WORDS : List String :=
  ["captcha", "verify", "block", "access", "gate", "challenge"]

/-- The `captcha_keywords` list of `_detect_blocked`. -/
def CAPTCHA_KEYWORDS : List String :=
  ["captcha", "verify", "challenge", "recaptcha", "hcaptcha"]

/-- The result record of `_detect_blocked`. -/
structure BlockedSignals where
  is_blocked : Bool
  reason : String
  tags : List String
deriving Repr, DecidableEq

/-- The captcha-form test of `_detect_blocked` check 2. -/
def captchaFormTest (form : FormDivTag) : Bool :=
  CAPTCHA_KEYWORDS.any (fun kw =>
    pyContains (pyLower form.action) kw ||
    pyContains (pyLower form.idAttr) kw ||
    pyContains (pyLower (joinSep " " form.classes)) kw)

/-- `page_classifier._detect_blocked`. -/
def detect_blocked (doc : Option HtmlDoc) (text : String) : BlockedSignals :=
  match doc with
  | none => ⟨false, "", []⟩
  | some d =>
    let textLength := (pyStrip text).length
    if textLength < 200 ∧
        d.formsAndDivs.any (fun e =>
          e.classes.any (fun cls =>
            BLOCKING_CLASS_WORDS.any (fun w => containsCI cls w))) then
      ⟨true, "Low content with blocking elements detected", ["blocking_elements"]⟩
    else if (d.formsAndDivs.filter (·.isForm)).any captchaFormTest then
      ⟨true, "Captcha/verification form detected", ["captcha_form"]⟩
    else if d.metaRefresh ∧ textLength < 500 then
      ⟨true, "Meta refresh with low content (likely interstitial)", ["meta_refresh"]⟩
    else if textLength < 300 ∧ d.scriptCount > 5 ∧ textLength < 200 then
      ⟨true, "Low content with excessive scripts (likely blocking page)",
        ["low_content_high_scripts"]⟩
    else ⟨false, "", []⟩

/-! ## Candidate-link extraction -/

/-- CPython `uses_relative`. -/
def USES_RELATIVE : List String :=
  ["", "ftp", "http", "gopher", "nntp", "imap", "wais", "file", "https",
   "shttp", "mms", "prospero", "rtsp", "rtspu", "sftp", "svn", "svn+ssh",
   "ws", "wss"]

/-- CPython `uses_netloc`. -/
def USES_NETLOC : List String :=
  ["", "ftp", "http", "gopher", "nntp", "telnet", "imap", "wais", "file",
   "mms", "https", "shttp", "snews", "prospero", "rtsp", "rtspu", "rsync",
   "svn", "svn+ssh", "sftp", "nfs", "git", "git+ssh", "ws", "wss"]

/-- CPython `urljoin`. -/
def pyUrljoin (base url : String) : String :=
  if base = "" then url
  else if url = "" then base
  else
    let b := pyUrlparseD base ""
    let p := pyUrlparseD url b.scheme
    if p.scheme ≠ b.scheme ∨ ¬ USES_RELATIVE.contains p.scheme then url
    else
      let useNetloc := USES_NETLOC.contains p.scheme
      if useNetloc ∧ p.netloc ≠ "" then pyUrlunparse p
      else
        let netloc := if useNetloc then b.netloc else p.netloc
        if p.path = "" ∧ p.params = "" then
          pyUrlunparse { scheme := p.scheme
                         netloc := netloc
                         path := b.path
                         params := b.params
                         query := if p.query = "" then b.query else p.query
                         fragment := p.fragment }
        else
          let baseParts := (splitOnChar (Char.ofNat 47) b.path.data).map String.mk
          let baseParts := if baseParts.getLast? ≠ some "" then baseParts.dropLast
                           else baseParts
          let segments :=
            if startsWithS p.path "/" then (splitOnChar (Char.ofNat 47) p.path.data).map String.mk
            else baseParts ++ (splitOnChar (Char.ofNat 47) p.path.data).map String.mk
          -- segments[1:-1] = filter(None, segments[1:-1])
          let segments :=
            match segments with
            | [] => []
            | [x] => [x]
            | first :: rest =>
              first :: (rest.dropLast.filter (· ≠ "")) ++ [rest.getLastD ""]
          let resolved := segments.foldl (fun acc seg =>
            if seg = ".." then acc.dropLast
            else if seg = "." then acc
            else acc ++ [seg]) ([] : List String)
          let resolved :=
            if segments.getLastD "" = "." ∨ segments.getLastD "" = ".." then
              resolved ++ [""]
            else resolved
          let joined := joinSep "/" resolved
          let path := if joined = "" then "/" else joined
          pyUrlunparse { scheme := p.scheme
                         netloc := netloc
                         path := path
                         params := p.params
                         query := p.query
                         fragment := p.fragment }

/-- The strict allowlist of `_extract_product_candidate_links`, on the
lower-cased path. -/
def strictAllowlistMatch (pathLower : List Char) : Bool :=
  -- /auto_[^/]+\.html$
  anySuffix (fun s =>
    "/auto_".data.isPrefixOf s &&
      (let r := s.drop 6
       let stripped := if r.getLast? = some '\n' then r.dropLast else r
       ".html".data.isSuffixOf stripped &&
         (let a := stripped.take (stripped.length - 5)
          !a.isEmpty && !a.contains '/')) ) pathLower ||
  -- /auto_[^/]+/\d+\.html$
  anySuffix (fun s =>
    "/auto_".data.isPrefixOf s &&
      (let r := s.drop 6
       let seg := r.takeWhile (· ≠ '/')
       !seg.isEmpty &&
         (match r.drop seg.length with
          | '/' :: r3 =>
            let d := r3.takeWhile Char.isDigit
            !d.isEmpty && ".html".data.isPrefixOf (r3.drop d.length) &&
              atDollar ((r3.drop d.length).drop 5)
          | _ => false)) ) pathLower ||
  -- /product/[^/]+/\d+
  anySuffix (fun s =>
    "/product/".data.isPrefixOf s &&
      (let r := s.drop 9
       let seg := r.takeWhile (· ≠ '/')
       !seg.isEmpty &&
         (match r.drop seg.length with
          | '/' :: r3 => (r3.headD ' ').isDigit
          | _ => false)) ) pathLower ||
  -- /p/[^/]+
  anySuffix (fun s =>
    "/p/".data.isPrefixOf s &&
      (match s.drop 3 with
       | x :: _ => x ≠ '/'
       | [] => false)) pathLower ||
  -- /item/\d+
  anySuffix (fun s =>
    "/item/".data.isPrefixOf s && ((s.drop 6).headD ' ').isDigit) pathLower ||
  -- /detail/\d+
  anySuffix (fun s =>
    "/detail/".data.isPrefixOf s && ((s.drop 8).headD ' ').isDigit) pathLower ||
  -- /products/[^/]+
  anySuffix (fun s =>
    "/products/".data.isPrefixOf s &&
      (match s.drop 10 with
       | x :: _ => x ≠ '/'
       | [] => false)) pathLower ||
  -- /\d{6,}$
  anySuffix (fun s =>
    match s with
    | '/' :: r =>
      let d := r.takeWhile Char.isDigit
      d.length ≥ 6 && atDollar (r.drop d.length)
    | _ => false) pathLower

/-- The blocklist of `_extract_product_candidate_links`, on the lower-cased
path. -/
def blocklistMatch (pathLower : List Char) : Bool :=
  strContains pathLower "/search".data ||
  strContains pathLower "/category".data ||
  strContains pathLower "/catalog".data ||
  strContains pathLower "/filter".data ||
  strContains pathLower "/all".data ||
  strContains pathLower "/list".data ||
  strContains pathLower "/results".data ||
  -- /car/[^/]+$
  anySuffix (fun s =>
    "/car/".data.isPrefixOf s &&
      (let r := s.drop 5
       let seg := r.takeWhile (· ≠ '/')
       !seg.isEmpty && (r.drop seg.length).isEmpty)) pathLower ||
  -- /car/[^/]+/[^/]+$
  anySuffix (fun s =>
    "/car/".data.isPrefixOf s &&
      (let r := s.drop 5
       let seg := r.takeWhile (· ≠ '/')
       !seg.isEmpty &&
         (match r.drop seg.length with
          | '/' :: r2 =>
            let seg2 := r2.takeWhile (· ≠ '/')
            !seg2.isEmpty && (r2.drop seg2.length).isEmpty
          | _ => false))) pathLower

/-- `page_classifier._extract_product_candidate_links` (the source also
computes a product-container proximity flag and a `product_containers` query
whose results are never used; they are omitted because they have no effect). -/
def extract_product_candidate_links (doc : Option HtmlDoc) (baseUrl : String) : List String :=
  match doc with
  | none => []
  | some d =>
    let baseDomain := pyLower (pyUrlparse baseUrl).netloc
    let result := d.links.foldl (fun (acc : List String × List String) link =>
      let href := pyStrip link.href
      if href = "" ∨ startsWithS href "#" ∨ startsWithS href "javascript:" then acc
      else
        let absoluteUrl := pyUrljoin baseUrl href
        let parsed := pyUrlparse absoluteUrl
        if ¬ (parsed.scheme = "http" ∨ parsed.scheme = "https") then acc
        else if pyLower parsed.netloc ≠ baseDomain then acc
        else
          let pathLower := pyLower parsed.path
          if ¬ strictAllowlistMatch pathLower.data ∨ blocklistMatch pathLower.data then acc
          else
            let normalized := clean_url absoluteUrl true
            if acc.1.contains normalized then acc
            else (normalized :: acc.1, acc.2 ++ [normalized])) ([], [])
    result.2.take 50

/-! ## `page_classifier._is_listing_url` and `classify_page` -/

/-- The `listing_indicators` list (`?q=` and the other query-form indicators
can never match, since `urlparse` strips the `?` from the query; they are
kept verbatim). -/
def LISTING_INDICATORS : List String :=
  ["/search", "/category", "/catalog", "/c/", "/list", "/category/", "/shop/",
   "/products", "/items", "?q=", "?search=", "?category=", "?filter=", "/l/"]

/-- `page_classifier._is_listing_url`. -/
def is_listing_url (url : String) : Bool :=
  let parsed := pyUrlparse url
  let pathLower := pyLower parsed.path
  let queryLower := pyLower parsed.query
  LISTING_INDICATORS.any (fun ind =>
    pyContains pathLower ind ∨ pyContains queryLower ind)

/-- The record returned by `classify_page` (the per-branch `signals` dicts
are not needed by any claim and are omitted; a missing
`product_candidate_links` key is modelled as `[]`). -/
structure ClassifyResult where
  verdict : PageVerdict
  product_count : Nat
  reason : String
  product_candidate_links : List String
deriving Repr

/-- `page_classifier.classify_page`.  `doc = none` models empty `html`. -/
def classify_page (doc : Option HtmlDoc) (text : String) (url : String) : ClassifyResult :=
  match doc with
  | none => ⟨.error, 0, "No HTML content", []⟩
  | some d =>
    let pathLower := pyLower (pyUrlparse url).path
    if isGenericPath pathLower ∧ ¬ has_product_signals (some d) text then
      ⟨.generic, 0, "Generic redirect page with no products", []⟩
    else
      let blockedSignals := detect_blocked (some d) text
      if blockedSignals.is_blocked then
        ⟨.blocked, 0, blockedSignals.reason, []⟩
      else
        let productSignals := detect_products (some d) text url
        let productCount := productSignals.count
        let isListingUrl := is_listing_url url
        let productCandidateLinks :=
          if isListingUrl then extract_product_candidate_links (some d) url else []
        if productCount > 0 then
          if isListingUrl then
            { verdict := .listing_with_products
              product_count := productCount
              reason := s!"Listing page with {productCount} products detected"
              product_candidate_links := productCandidateLinks }
          else
            ⟨.product, productCount, "Product page detected", []⟩
        else
          if isListingUrl then
            ⟨.listing_empty, 0, "Listing/search page with no products", []⟩
          else if text.length > 500 then
            ⟨.product, 1, "Potential product page (no schema but has content)", []⟩
          else
            ⟨.error, 0, "Page has insufficient content", []⟩

/-! ## Collaborator results and the run environment

`_execute_tool` consumes the dictionaries produced by the fetch/render/search
collaborators.  Dictionary keys that may be absent are `Option` fields
(`none` = key absent); the `html` key is read only through Python truthiness,
so an absent key and an empty string coincide and it is a plain `String`.
A collaborator call that raises is `Except.error`; exceptions raised by
`fetch`/`render` inside `_execute_tool` are uncaught and propagate out of the
run, while `search` failures are caught and turned into a failed ToolResult,
and `_verify_product_urls` catches fetch failures. -/

/-- A `classification` dict as attached to fetch/render results. -/
structure Classification where
  verdict : Option String := none
  reason : Option String := none
  product_count : Option Nat := none
  product_candidate_links : Option (List String) := none
deriving Repr, DecidableEq

/-- One search result (`title`/`url`/`snippet` are accessed unconditionally). -/
structure SearchItem where
  title : String
  url : String
  snippet : String
deriving Repr, DecidableEq

/-- The dict returned by the fetch collaborator. -/
structure FetchResult where
  status : Option Nat := none
  final_url : Option String := none
  canonical_url : Option String := none
  html : String := ""
  text : Option String := none
  title : Option String := none
  extracted_links : Option (List String) := none
  classification : Option Classification := none
  error : Option String := none
deriving Repr, DecidableEq

/-- The dict returned by the render collaborator. -/
structure RenderResult where
  final_url : Option String := none
  canonical_url : Option String := none
  html : String := ""
  text : Option String := none
  extracted_links : Option (List String) := none
  classification : Option Classification := none
deriving Repr, DecidableEq

/-- Parsed arguments of one tool call (`json.loads` result, validated with
`.get` defaults by the executor). -/
structure ToolArgs where
  query : Option String := none
  count : Option Nat := none
  url : Option String := none
deriving Repr, DecidableEq

/-- One entry of an assistant message's `tool_calls` list.  `argsParsed` is
the result of `json.loads(function.arguments)`; `none` models a
`JSONDecodeError`, which makes the loop skip the call. -/
structure ToolCallRec where
  id : Option String
  name : String
  argumentsRaw : String
  argsParsed : Option ToolArgs
deriving Repr, DecidableEq

/-- An assistant message; an absent or empty `tool_calls` key is `[]`. -/
structure AssistantMsg where
  content : Option String
  toolCalls : List ToolCallRec
deriving Repr, DecidableEq

/-- A message of the conversation history. -/
inductive Message where
  | system (content : String)
  | user (content : String)
  | assistant (m : AssistantMsg)
  | tool (toolCallId : Option String) (content : String)
deriving Repr, DecidableEq

/-- The collaborators injected into the loop: LLM chat (indexed by the step
at which it is called), web search, page fetch, browser render, plus the pure
helpers `extract_text` (html_extract), `extract_sku` (sku_extract) and the
md5 hex digest used for long cache keys.  They are oracles: the claims hold
for every behaviour of these functions. -/
structure Env where
  chat : Nat → List Message → Except String AssistantMsg
  search : String → Nat → Except String (List SearchItem)
  fetch : String → Except String FetchResult
  render : String → Except String RenderResult
  extract_text : String → String
  extract_sku : String → String → Option String
  md5Hex : String → String

/-- A value stored in the process-wide disk cache. -/
inductive CacheVal where
  | searchVal (results : List SearchItem)
  | fetchVal (r : FetchResult)
  | renderVal (r : RenderResult)
deriving Repr, DecidableEq

/-- An I/O action performed by the executor: a network call or a cache
access (both count as I/O for the budget claim). -/
inductive IOEvent where
  | cacheGet (key : String)
  | cacheSet (key : String)
  | searchNet (query : String) (count : Nat)
  | fetchNet (url : String)
  | renderNet (url : String)
deriving Repr, DecidableEq

/-- The executor-visible mutable state: the per-run `fetched_urls` set, the
process-wide cache contents, and a chronological log of I/O events. -/
structure ExecState where
  fetchedUrls : Finset String
  cache : String → Option CacheVal
  events : List IOEvent

/-- `Cache._make_key`: strip and lower-case the identifier, hash it when
longer than 100 characters, and prefix the operation class. -/
def makeKey (env : Env) (opClass identifier : String) : String :=
  let normalized := pyLower (pyStrip identifier)
  let normalized := if normalized.length > 100 then env.md5Hex normalized else normalized
  opClass ++ ":" ++ normalized

/-- A cache read (`Cache.get_*`), logged as I/O. -/
def cacheGet (env : Env) (st : ExecState) (opClass identifier : String) :
    Option CacheVal × ExecState :=
  let key := makeKey env opClass identifier
  (st.cache key, { st with events := st.events ++ [.cacheGet key] })

/-- A cache write (`Cache.set_*`), logged as I/O (the TTL passed by the
source is handled by the external diskcache store and not modelled). -/
def cacheSetVal (env : Env) (st : ExecState) (opClass identifier : String)
    (val : CacheVal) : ExecState :=
  let key := makeKey env opClass identifier
  { st with cache := fun k => if k = key then some val else st.cache k,
            events := st.events ++ [.cacheSet key] }

/-! ## `AgentLoop._execute_tool` -/

/-- The record shape of every dict `_execute_tool` returns (`none` = key
absent). -/
structure ToolResult where
  content : String
  success : Bool
  url : Option String := none
  status : Option Nat := none
  error : Option String := none
  final_url : Option String := none
  canonical_url : Option String := none
  title : Option String := none
  sku : Option String := none
  extracted_links : Option (List String) := none
  product_candidate_links : Option (List String) := none
  is_verified : Option Bool := none
  verdict : Option String := none
  product_count : Option Nat := none
  verification_reason : Option String := none
  rejection_reason : Option String := none
deriving Repr, DecidableEq

/-- Python truthiness of an optional `text` field (absent, `None` and `""`
are all falsy). -/
def textTruthy (t : Option String) : Bool :=
  match t with
  | some s => s ≠ ""
  | none => false

/-- The `rejection_reason` override chain repeated at each of the three
not-verified branches of `_execute_tool`. -/
def rejectionReasonFor (cls : Classification) (verdict : PageVerdict) : String :=
  if verdict = .listing_empty then "Empty listing page (no products found)"
  else if verdict = .blocked then "Page is blocked or requires verification"
  else if verdict = .generic then "Generic redirect page"
  else if verdict = .error then "Page classification error"
  else cls.reason.getD "Page did not pass verification"

/-- The `product_candidate_links` suffix appended to successful fetch/render
content (first ten numbered, then a `... and n more` line). -/
def candidateLinksBlock (productCandidateLinks : List String) : String :=
  if productCandidateLinks.isEmpty then ""
  else
    let n := productCandidateLinks.length
    let header := s!"\n\nFound {n} product candidate links:\n"
    let body := String.join ((productCandidateLinks.take 10).enum.map
      (fun p => s!"{p.1 + 1}. {p.2}\n"))
    let tail := if n > 10 then
        let extra := n - 10
        s!"... and {extra} more\n"
      else ""
    header ++ body ++ tail

/-- Continuation of the `fetch_url` branch of `_execute_tool` after the
cache/fetch step produced `fetchResult` (the 403/401 render fallback and the
normal verification flow). -/
def fetchContinue (env : Env) (st : ExecState) (url : String)
    (fetchResult : FetchResult) : Except String (ToolResult × ExecState) :=
  let status := fetchResult.status.getD 0
  let finalUrl := fetchResult.final_url.getD url
  if status = 403 ∨ status = 401 then
    -- auto-fallback to render on 403/401; the render cache is deliberately
    -- not consulted ("we want fresh attempt")
    let st := { st with events := st.events ++ [.renderNet url] }
    match env.render url with
    | .error e => .error e
    | .ok renderResult0 =>
      let (renderResult, st) :=
        if renderResult0.html ≠ "" ∨ textTruthy renderResult0.text then
          let renderResult :=
            if renderResult0.html ≠ "" ∧ ¬ textTruthy renderResult0.text then
              { renderResult0 with text := some (env.extract_text renderResult0.html) }
            else renderResult0
          (renderResult, cacheSetVal env st "render" url (.renderVal renderResult))
        else (renderResult0, st)
      let classification := renderResult.classification.getD {}
      let verdict := parseVerdict (classification.verdict.getD "error")
      let isVerified := is_good_url 200 url verdict  -- assume 200 for render
      if ¬ textTruthy renderResult.text ∧ renderResult.html = "" then
        .ok ({ content := s!"Failed to render {url} after 403 error. Page may be blocked or timeout occurred.",
               success := false, url := some url, is_verified := some false,
               rejection_reason := some "Failed to render after 403" }, st)
      else if ¬ isVerified then
        let rejectionReason := rejectionReasonFor classification verdict
        let text := renderResult.text.getD ""
        let textHead := String.mk (text.data.take 500)
        .ok ({ content := s!"Rendered {url} (after 403) but page is not valid: {rejectionReason}.\n\nPage content:\n{textHead}...",
               success := false, url := some url, is_verified := some false,
               rejection_reason := some rejectionReason,
               verdict := some verdict.val,
               product_count := some (classification.product_count.getD 0) }, st)
      else
        let st := { st with fetchedUrls := insert url st.fetchedUrls }
        let text := renderResult.text.getD ""
        let extractedLinks := renderResult.extracted_links.getD []
        let productCandidateLinks := classification.product_candidate_links.getD []
        let finalUrl2 := renderResult.final_url.getD url
        let canonicalUrl := renderResult.canonical_url
        let content :=
          s!"Fetched {url} returned 403 (bot check), so rendered with browser instead:\n\n{text}" ++
          candidateLinksBlock productCandidateLinks
        .ok ({ content := content, success := true, url := some finalUrl2,
               final_url := some finalUrl2, canonical_url := canonicalUrl,
               extracted_links := some extractedLinks,
               product_candidate_links := some productCandidateLinks,
               is_verified := some true, verdict := some verdict.val,
               product_count := some (classification.product_count.getD 0),
               verification_reason := some ("Rendered after 403: " ++
                 classification.reason.getD "Page verified successfully") }, st)
  else
    -- normal flow for non-403 status codes
    let classification := fetchResult.classification.getD {}
    let verdict := parseVerdict (classification.verdict.getD "error")
    let isVerified := is_good_url status finalUrl verdict
    if fetchResult.html = "" ∧ ¬ textTruthy fetchResult.text then
      let errorMsg := fetchResult.error.getD "Unknown error"
      .ok ({ content := s!"Failed to fetch {url} (status: {status}, error: {errorMsg}). Try render_url if this is a JavaScript-heavy page.",
             success := false, url := some finalUrl, status := some status,
             error := some errorMsg, is_verified := some false,
             rejection_reason := some s!"Failed to fetch (status: {status}, error: {errorMsg})" }, st)
    else if ¬ isVerified then
      let rejectionReason := rejectionReasonFor classification verdict
      let text := fetchResult.text.getD (env.extract_text fetchResult.html)
      let title := fetchResult.title.getD ""
      let textHead := String.mk (text.data.take 500)
      .ok ({ content := s!"Fetched {url} but page is not valid: {rejectionReason}.\n\nPage content:\n{textHead}...",
             success := false, url := some finalUrl, title := some title,
             is_verified := some false, rejection_reason := some rejectionReason,
             verdict := some verdict.val,
             product_count := some (classification.product_count.getD 0) }, st)
    else
      let st := { st with fetchedUrls := insert finalUrl st.fetchedUrls }
      let text := fetchResult.text.getD (env.extract_text fetchResult.html)
      let title := fetchResult.title.getD ""
      let extractedLinks := fetchResult.extracted_links.getD []
      let productCandidateLinks := classification.product_candidate_links.getD []
      let canonicalUrl := fetchResult.canonical_url
      let sku := if verdict = .product then env.extract_sku fetchResult.html text else none
      let content := s!"Fetched {url}:\n\n{text}" ++ candidateLinksBlock productCandidateLinks
      .ok ({ content := content, success := true, url := some finalUrl,
             final_url := some finalUrl, canonical_url := canonicalUrl,
             title := some title, sku := sku,
             extracted_links := some extractedLinks,
             product_candidate_links := some productCandidateLinks,
             is_verified := some true, verdict := some verdict.val,
             product_count := some (classification.product_count.getD 0),
             verification_reason := some (classification.reason.getD "Page verified successfully") }, st)

/-- Continuation of the `render_url` branch after the cache/render step. -/
def renderContinue (env : Env) (st : ExecState) (url : String)
    (renderResult : RenderResult) : Except String (ToolResult × ExecState) :=
  let classification := renderResult.classification.getD {}
  let verdict := parseVerdict (classification.verdict.getD "error")
  if ¬ textTruthy renderResult.text ∧ renderResult.html = "" then
    .ok ({ content := s!"Failed to render {url}. Page may be blocked or timeout occurred.",
           success := false, url := some url, is_verified := some false,
           rejection_reason := some "Failed to render (timeout or error)" }, st)
  else
    let isVerified := is_good_url 200 url verdict
    if ¬ isVerified then
      let rejectionReason := rejectionReasonFor classification verdict
      let text := renderResult.text.getD ""
      let textHead := String.mk (text.data.take 500)
      .ok ({ content := s!"Rendered {url} but page is not valid: {rejectionReason}.\n\nPage content:\n{textHead}...",
             success := false, url := some url, is_verified := some false,
             rejection_reason := some rejectionReason,
             verdict := some verdict.val,
             product_count := some (classification.product_count.getD 0) }, st)
    else
      let st := { st with fetchedUrls := insert url st.fetchedUrls }
      let text := renderResult.text.getD ""
      let extractedLinks := renderResult.extracted_links.getD []
      let productCandidateLinks := classification.product_candidate_links.getD []
      let finalUrl := renderResult.final_url.getD url
      let canonicalUrl := renderResult.canonical_url
      let sku := if verdict = .product then
          env.extract_sku renderResult.html text
        else none
      let content := s!"Rendered {url}:\n\n{text}" ++ candidateLinksBlock productCandidateLinks
      .ok ({ content := content, success := true, url := some finalUrl,
             final_url := some finalUrl, canonical_url := canonicalUrl, sku := sku,
             extracted_links := some extractedLinks,
             product_candidate_links := some productCandidateLinks,
             is_verified := some true, verdict := some verdict.val,
             product_count := some (classification.product_count.getD 0),
             verification_reason := some (classification.reason.getD "Page verified successfully") }, st)

/-- `AgentLoop._execute_tool`: dispatch one tool call, applying the cache,
the budget, the classifier verdict and the verification gate, and mutating
`fetched_urls` on success. -/
def execute_tool (env : Env) (functionName : String) (args : ToolArgs)
    (st : ExecState) (maxPagesFetched : Nat) : Except String (ToolResult × ExecState) :=
  if functionName = "search_web" then
    let query := args.query.getD ""
    let count := args.count.getD 5
    let (cached, st) := cacheGet env st "search" query
    -- `if cached:` — a missing entry and a cached empty list are both misses
    let cachedResults : Option (List SearchItem) :=
      match cached with
      | some (.searchVal r) => if r.isEmpty then none else some r
      | _ => none
    let resultsSt : Except String (List SearchItem × ExecState) :=
      match cachedResults with
      | some r => .ok (r, st)
      | none =>
        let st := { st with events := st.events ++ [.searchNet query count] }
        match env.search query count with
        | .error e => .error e
        | .ok results => .ok (results, cacheSetVal env st "search" query (.searchVal results))
    match resultsSt with
    | .error e =>
      -- the search exception is caught and reported to the model
      .ok ({ content := s!"Search failed: {e}", success := false },
           { st with events := st.events ++ [.searchNet query count] })
    | .ok (results, st) =>
      if results.isEmpty then
        .ok ({ content := "Search returned no results. Try a different query.",
               success := false }, st)
      else
        let formatted := joinSep "\n" (results.map (fun r =>
          s!"- {r.title}\n  URL: {r.url}\n  {r.snippet}"))
        let n := results.length
        .ok ({ content := s!"Found {n} search results:\n\n{formatted}",
               success := true }, st)
  else if functionName = "fetch_url" then
    let url := args.url.getD ""
    if url = "" then .ok ({ content := "No URL provided", success := false }, st)
    else if st.fetchedUrls.card ≥ maxPagesFetched then
      .ok ({ content := s!"Maximum pages fetched ({maxPagesFetched}). Cannot fetch more.",
             success := false }, st)
    else
      let (cached, st) := cacheGet env st "fetch" url
      match cached with
      | some (.fetchVal fetchResult) => fetchContinue env st url fetchResult
      | _ =>
        let st := { st with events := st.events ++ [.fetchNet url] }
        match env.fetch url with
        | .error e => .error e
        | .ok fetchResult =>
          if fetchResult.html ≠ "" then
            let fetchResult := { fetchResult with
              text := some (env.extract_text fetchResult.html) }
            fetchContinue env (cacheSetVal env st "fetch" url (.fetchVal fetchResult))
              url fetchResult
          else fetchContinue env st url fetchResult
  else if functionName = "render_url" then
    let url := args.url.getD ""
    if url = "" then .ok ({ content := "No URL provided", success := false }, st)
    else if st.fetchedUrls.card ≥ maxPagesFetched then
      .ok ({ content := s!"Maximum pages fetched ({maxPagesFetched}). Cannot render more.",
             success := false }, st)
    else
      let (cached, st) := cacheGet env st "render" url
      match cached with
      | some (.renderVal renderResult) => renderContinue env st url renderResult
      | _ =>
        let st := { st with events := st.events ++ [.renderNet url] }
        match env.render url with
        | .error e => .error e
        | .ok renderResult0 =>
          if renderResult0.html ≠ "" ∨ textTruthy renderResult0.text then
            let renderResult :=
              if renderResult0.html ≠ "" ∧ ¬ textTruthy renderResult0.text then
                { renderResult0 with text := some (env.extract_text renderResult0.html) }
              else renderResult0
            renderContinue env (cacheSetVal env st "render" url (.renderVal renderResult))
              url renderResult
          else renderContinue env st url renderResult0
  else
    .ok ({ content := s!"Unknown tool: {functionName}", success := false }, st)

/-! ## Provenance records, `_get_verified_sources_only`,
`_verify_product_urls` -/

/-- One value of the `verified_urls` dict (written only at the
`is_verified` branch of the run loop, so every key is present; `verdict`
stays optional because it is stored through `.get`). -/
structure UrlMeta where
  url : String
  title : String
  verdict : Option String
  product_count : Nat
  reason : String
  final_url : String
  canonical_url : Option String
  sku : Option String
deriving Repr, DecidableEq

/-- `d[k] = v` on an insertion-ordered dict: replace in place or append. -/
def assocSet {α : Type} : List (String × α) → String → α → List (String × α)
  | [], k, v => [(k, v)]
  | (k', v') :: rest, k, v =>
    if k' = k then (k, v) :: rest else (k', v') :: assocSet rest k v

/-- One `sources` entry. -/
structure SourceEntry where
  url : String
  title : String
deriving Repr, DecidableEq

/-- `AgentLoop._get_verified_sources_only`: display `canonical_url` when
truthy, else `final_url` when truthy, else the key (the `title` key is always
present on stored metadata, so its `.get` default is never taken). -/
def get_verified_sources_only (verifiedUrls : List (String × UrlMeta)) :
    List SourceEntry :=
  verifiedUrls.map (fun kv =>
    let displayUrl :=
      match kv.2.canonical_url with
      | some c =>
        if c ≠ "" then c
        else if kv.2.final_url ≠ "" then kv.2.final_url else kv.1
      | none => if kv.2.final_url ≠ "" then kv.2.final_url else kv.1
    { url := displayUrl, title := kv.2.title })

/-- The loop body of `AgentLoop._verify_product_urls` for one entry.  Every
entry is re-emitted under its original key; a verified `PRODUCT` entry whose
preferred canonical/final URL differs and fits the budget is re-fetched, and
its metadata is rewritten to the preferred URL only when the re-fetch
returns status 200, classifies `product`, and the extracted SKU equals the
stored one; a raised fetch exception is caught and the entry kept. -/
def verifyStep (env : Env) (maxPagesFetched : Nat)
    (acc : List (String × UrlMeta) × ExecState) (kv : String × UrlMeta) :
    List (String × UrlMeta) × ExecState :=
  let (correctedUrls, st) := acc
  let url := kv.1
  let metadata := kv.2
-- only verify PRODUCT pages (not listings)
  if metadata.verdict ≠ some "product" then
    (correctedUrls ++ [(url, metadata)], st)
  else
    let canonicalUrl := metadata.canonical_url
    let finalUrl := metadata.final_url
    -- prefer the canonical URL if it exists, is truthy and differs
    let preferredUrl :=
      match canonicalUrl with
      | some c => if c ≠ "" ∧ c ≠ url then c else finalUrl
      | none => finalUrl
    if preferredUrl ≠ url ∧ preferredUrl ∉ st.fetchedUrls then
      if st.fetchedUrls.card < maxPagesFetched then
        let st := { st with events := st.events ++ [.fetchNet preferredUrl] }
        match env.fetch preferredUrl with
        | .error _ => (correctedUrls ++ [(url, metadata)], st)
        | .ok fetchResult =>
          if fetchResult.status = some 200 then
            let classification := fetchResult.classification.getD {}
            if classification.verdict = some "product" then
              let st := { st with fetchedUrls := insert preferredUrl st.fetchedUrls }
              let preferredSku :=
                env.extract_sku fetchResult.html (fetchResult.text.getD "")
              if metadata.sku = preferredSku then
                let metadata := { metadata with
                  url := preferredUrl
                  final_url := preferredUrl
                  canonical_url :=
                    match fetchResult.canonical_url with
                    | some c => some c
                    | none => canonicalUrl
                  sku := preferredSku }
                (correctedUrls ++ [(url, metadata)], st)
              else
                -- SKU mismatch: keep the original URL
                (correctedUrls ++ [(url, metadata)], st)
            else (correctedUrls ++ [(url, metadata)], st)
          else (correctedUrls ++ [(url, metadata)], st)
      else (correctedUrls ++ [(url, metadata)], st)
    else (correctedUrls ++ [(url, metadata)], st)

/-- The final correctness pass proper: fold `verifyStep` over the verified
entries. -/
def verify_product_urls (env : Env) (verifiedUrls : List (String × UrlMeta))
    (st : ExecState) (maxPagesFetched : Nat) :
    List (String × UrlMeta) × ExecState :=
  verifiedUrls.foldl (verifyStep env maxPagesFetched) ([], st)

/-! ## `AgentLoop.run` -/

/-- The system prompt of `AgentLoop.run` (the adjacent string literals of
the source concatenated). -/
def SYSTEM_PROMPT : String :=
  "You are a product research assistant that finds similar products across websites. " ++
  "Follow this workflow:\n\n" ++
  "PHASE 1: Understand the reference product\n" ++
  "- If user provides a reference product URL, fetch it with fetch_url (or render_url if needed)\n" ++
  "- Extract reference attributes: title, material, stones, brand, collection keywords, price range\n" ++
  "- If page is blocked/empty, try render_url then classify again\n\n" ++
  "PHASE 2: Get entry point on target site\n" ++
  "- Use search_web with 'site:domain.com keywords' format \n" ++
  "- Build search query from reference attributes (brand, material, keywords)\n" ++
  "- DO NOT parse target site into text - use site:domain searches\n\n" ++
  "PHASE 3: Extract product candidates from target site\n" ++
  "- For each promising target URL from search results:\n" ++
  "  * Use render_url for listing pages (they're often JavaScript-heavy)\n" ++
  "  * The tool returns product_candidate_links[] extracted from DOM\n" ++
  "  * If product_candidate_links is empty, discard the page (even if HTTP 200)\n\n" ++
  "PHASE 4: Verify product pages\n" ++
  "- For first K candidates (up to 15):\n" ++
  "  * fetch_url(product_url) - fast check\n" ++
  "  * If not PRODUCT verdict, try render_url and classify again\n" ++
  "  * If still not PRODUCT, discard\n" ++
  "  * Extract structured fields and compare with reference attributes\n" ++
  "- Stop when you have enough verified products or budget exhausted\n\n" ++
  "PHASE 5: Output\n" ++
  "- Return verified products with: title, price (if available), verified product URL\n" ++
  "- Only URLs that were successfully fetched/rendered can appear in output\n\n" ++
  "CRITICAL RULES:\n" ++
  "- LLM may generate search queries (including site:domain format)\n" ++
  "- LLM may NOT generate product URLs - only use URLs returned by tools\n" ++
  "- Never hallucinate or guess URL structures\n" ++
  "- All product URLs must be verified via fetch_url/render_url\n" ++
  "- If a listing page has no product_candidate_links, it's useless - discard it\n" ++
  "- Be concise but thorough. If search doesn't yield results, refine query and try again."

/-- One `debug_traces` entry. -/
structure DebugEntry where
  step : Nat
  tool : String
  args : ToolArgs
  result_length : Nat
  success : Bool
deriving Repr, DecidableEq

/-- The dict returned by `AgentLoop.run`. -/
structure RunResult where
  answer : String
  sources : List SourceEntry
  debug : List DebugEntry
deriving Repr, DecidableEq

/-- The per-run state of the loop (`messages` plus the provenance maps; the
`sources` list is initialized empty at `run()` entry and — as the source
never appends to it — only the fatal LLM-failure path returns it). -/
structure RunState where
  messages : List Message
  attemptedUrls : Finset String
  verifiedUrls : List (String × UrlMeta)
  rejectedUrls : List (String × String)
  sources : List SourceEntry
  exec : ExecState
  debugTraces : List DebugEntry

/-- Processing of one tool call inside a round: execute, append the tool
message, merge provenance, append the debug trace, and inject the synthetic
budget-exhausted user message when the fetch budget is used up.  A
`JSONDecodeError` on the arguments (`argsParsed = none`) skips the call. -/
def processToolCall (env : Env) (maxPagesFetched stepIdx : Nat) (st : RunState)
    (toolCall : ToolCallRec) : Except String RunState :=
  match toolCall.argsParsed with
  | none => .ok st
  | some functionArgs =>
    match execute_tool env toolCall.name functionArgs st.exec maxPagesFetched with
    | .error e => .error e
    | .ok (toolResult, exec) =>
      let st := { st with
        exec := exec
        messages := st.messages ++ [Message.tool toolCall.id toolResult.content] }
      let st : RunState :=
        match toolResult.url with
        | none => st
        | some url =>
          let st := { st with attemptedUrls := insert url st.attemptedUrls }
          let finalUrl := toolResult.final_url.getD url
          let canonicalUrl := toolResult.canonical_url
          if toolResult.is_verified = some true then
            let meta : UrlMeta :=
              { url := url
                title := toolResult.title.getD url
                verdict := toolResult.verdict
                product_count := toolResult.product_count.getD 0
                reason := toolResult.verification_reason.getD ""
                final_url := finalUrl
                canonical_url := canonicalUrl
                sku := toolResult.sku }
            { st with verifiedUrls := assocSet st.verifiedUrls url meta }
          else
            match toolResult.rejection_reason with
            | some r =>
              if r ≠ "" then { st with rejectedUrls := assocSet st.rejectedUrls url r }
              else st
            | none => st
      let st := { st with debugTraces := st.debugTraces ++
        [{ step := stepIdx + 1, tool := toolCall.name, args := functionArgs,
           result_length := toolResult.content.length,
           success := toolResult.success }] }
      let st :=
        if st.exec.fetchedUrls.card ≥ maxPagesFetched then
          { st with messages := st.messages ++
            [.user s!"Maximum number of pages fetched ({maxPagesFetched}). Please provide your final answer based on the information gathered so far."] }
        else st
      .ok st

/-- The reversed scan for the last assistant message with truthy content,
used by the step-limit fallback. -/
def lastAssistantContent (msgs : List Message) : Option String :=
  msgs.reverse.findSome? (fun m =>
    match m with
    | .assistant am =>
      match am.content with
      | some c => if c ≠ "" then some c else none
      | none => none
    | _ => none)

/-- The step loop of `AgentLoop.run`.  `remaining` is the number of loop
iterations left (`maxSteps - stepIdx`); `remaining = 0` is the
max-steps-reached fallthrough.  An uncaught collaborator exception is
`Except.error`; an LLM transport failure is caught and becomes a normal
return carrying the error text. -/
def runAux (env : Env) (maxPagesFetched : Nat) :
    Nat → Nat → RunState → Except String RunResult
  | 0, _stepIdx, st =>
    -- max steps reached: best-effort summary, sanitize, then the final pass
    let finalAnswer :=
      match lastAssistantContent st.messages with
      | some c => "[Note: Reached step limit] " ++ c
      | none =>
        let verifiedSources := get_verified_sources_only st.verifiedUrls
        if ¬ verifiedSources.isEmpty then
          let n := verifiedSources.length
          s!"I found {n} verified source(s), but reached the step limit. " ++
          "Here's what I gathered:\n\n" ++
          String.join (verifiedSources.map (fun source =>
            s!"- {source.title}: {source.url}\n"))
        else
          "I reached the step limit before finding any verified sources. Please try a different query or increase max_steps."
    let finalAnswer := sanitize_output finalAnswer (st.verifiedUrls.map Prod.fst)
    let (verifiedUrls, _exec) :=
      verify_product_urls env st.verifiedUrls st.exec maxPagesFetched
    .ok { answer := finalAnswer,
          sources := get_verified_sources_only verifiedUrls,
          debug := st.debugTraces }
  | remaining + 1, stepIdx, st =>
    match env.chat stepIdx st.messages with
    | .error e =>
      .ok { answer := s!"Error communicating with LLM: {e}",
            sources := st.sources, debug := st.debugTraces }
    | .ok assistantMessage =>
      if assistantMessage.toolCalls.isEmpty then
        let answer := assistantMessage.content.getD ""
        let (verifiedUrls, _exec) :=
          verify_product_urls env st.verifiedUrls st.exec maxPagesFetched
        let answer := sanitize_output answer (verifiedUrls.map Prod.fst)
        .ok { answer := answer,
              sources := get_verified_sources_only verifiedUrls,
              debug := st.debugTraces }
      else
        let st := { st with messages := st.messages ++ [.assistant assistantMessage] }
        match assistantMessage.toolCalls.foldlM
            (processToolCall env maxPagesFetched stepIdx) st with
        | .error e => .error e
        | .ok st => runAux env maxPagesFetched remaining (stepIdx + 1) st

/-- `AgentLoop.run`: fresh per-run state over the process-wide cache. -/
def run (env : Env) (userPrompt : String) (maxSteps maxPagesFetched : Nat)
    (cache : String → Option CacheVal) : Except String RunResult :=
  runAux env maxPagesFetched maxSteps 0
    { messages := [.system SYSTEM_PROMPT, .user userPrompt]
      attemptedUrls := ∅
      verifiedUrls := []
      rejectedUrls := []
      sources := []
      exec := { fetchedUrls := ∅, cache := cache, events := [] }
      debugTraces := [] }

/-! ## Lemmas about the product-count fold -/

/-- The JSON-LD counting step never decreases the count. -/
theorem jsonLdStep_le (n : Nat) (s : Option Json) : n ≤ jsonLdStep n s := by
  cases s <;> simp only [jsonLdStep] <;> (try split_ifs) <;> omega

/-- The JSON-LD counting fold never decreases the accumulator. -/
theorem jsonLdFold_mono (scripts : List (Option Json)) (n : Nat) :
    n ≤ scripts.foldl jsonLdStep n := by
  induction scripts generalizing n with
  | nil => exact le_rfl
  | cons s rest ih => exact le_trans (jsonLdStep_le n s) (ih _)

/-- A parsed JSON-LD Product dict among the scripts makes the count positive. -/
theorem jsonLdProductCount_pos {scripts : List (Option Json)} {data : Json}
    (hmem : some data ∈ scripts) (hdict : data.isDict = true)
    (hty : Json.isStrEq (data.dGet "@type") "Product" = true) :
    1 ≤ jsonLdProductCount scripts := by
  unfold jsonLdProductCount
  suffices h : ∀ n, n + 1 ≤ scripts.foldl jsonLdStep n from h 0
  intro n
  induction scripts generalizing n with
  | nil => cases hmem
  | cons s rest ih =>
    rcases List.mem_cons.mp hmem with heq | hmem'
    · subst heq
      simp only [List.foldl_cons]
      have hstep : jsonLdStep n (some data) = n + 1 := by
        simp [jsonLdStep, hdict, hty]
      rw [hstep]
      exact jsonLdFold_mono rest (n + 1)
    · simp only [List.foldl_cons]
      exact le_trans (Nat.add_le_add_right (jsonLdStep_le n s) 1) (ih hmem' _)

/-- With a JSON-LD Product script in the document, `_detect_products` reports
a positive count (`count = max(json_ld_count, microdata_count)`). -/
theorem detect_products_count_pos {d : HtmlDoc} {data : Json}
    (hmem : some data ∈ d.jsonLdScripts) (hdict : data.isDict = true)
    (hty : Json.isStrEq (data.dGet "@type") "Product" = true)
    (text url : String) :
    1 ≤ (detect_products (some d) text url).count := by
  have hj := jsonLdProductCount_pos hmem hdict hty
  unfold detect_products
  simp only
  rw [if_pos (Or.inl (by omega : jsonLdProductCount d.jsonLdScripts > 0))]
  exact le_trans hj (Nat.le_max_left _ _)

/-! ## Claim theorems: verification gate and classifier -/

/-- C2: the verification gate accepts exactly the 2xx results whose verdict
is `PRODUCT` or `LISTING_WITH_PRODUCTS`; the generic-root restriction is
subsumed by that requirement, and the four other verdicts (and by the closed
enum there are no others) are always rejected. -/
theorem gate_accepts_iff_product_or_listing (status : Nat) (finalUrl : String)
    (verdict : PageVerdict) :
    is_good_url status finalUrl verdict = true ↔
      ((200 ≤ status ∧ status < 300) ∧
       (verdict = .product ∨ verdict = .listing_with_products) ∧
       (isGenericPath (pyLower (pyUrlparse finalUrl).path) = true →
         (verdict = .product ∨ verdict = .listing_with_products))) := by
  unfold is_good_url
  by_cases hs : 200 ≤ status ∧ status < 300
  · cases verdict <;> simp_all
  · simp_all

/-- C10: `classify_page` is total over the six-verdict enum, and its
`product_count` is at least `1` exactly on `PRODUCT` and
`LISTING_WITH_PRODUCTS` results and `0` on every other verdict. -/
theorem classify_page_verdict_count_correlation (doc : Option HtmlDoc)
    (text url : String) :
    (classify_page doc text url).verdict ∈
      [PageVerdict.product, PageVerdict.listing_with_products,
       PageVerdict.listing_empty, PageVerdict.blocked, PageVerdict.generic,
       PageVerdict.error] ∧
    (1 ≤ (classify_page doc text url).product_count ↔
      ((classify_page doc text url).verdict = .product ∨
       (classify_page doc text url).verdict = .listing_with_products)) ∧
    (¬ ((classify_page doc text url).verdict = .product ∨
        (classify_page doc text url).verdict = .listing_with_products) →
      (classify_page doc text url).product_count = 0) := by
  cases doc with
  | none => simp [classify_page]
  | some d =>
    simp only [classify_page]
    split_ifs with h1 h2 h3 h4 h5 h6 <;> simp_all <;> omega

/-- C4 (amended): a page whose HTML contains a JSON-LD object of
`@type Product` classifies as `PRODUCT` — or `LISTING_WITH_PRODUCTS` when the
URL is listing-shaped — with `product_count ≥ 1`, provided the page is not
detected as blocked (in the source, blocked detection runs before product
detection and overrides it). -/
theorem jsonld_product_classifies_product_unless_blocked
    (d : HtmlDoc) (text url : String) (data : Json)
    (hmem : some data ∈ d.jsonLdScripts)
    (hdict : data.isDict = true)
    (hty : Json.isStrEq (data.dGet "@type") "Product" = true)
    (hnotblocked : (detect_blocked (some d) text).is_blocked = false) :
    (if is_listing_url url then
      (classify_page (some d) text url).verdict = PageVerdict.listing_with_products
     else
      (classify_page (some d) text url).verdict = PageVerdict.product) ∧
    1 ≤ (classify_page (some d) text url).product_count := by
  have hcnt := detect_products_count_pos hmem hdict hty text url
  have hsig : has_product_signals (some d) text = true := by
    unfold has_product_signals
    have := detect_products_count_pos hmem hdict hty text ""
    simp only [decide_eq_true_eq]
    omega
  simp only [classify_page]
  split_ifs with hgen hb hl <;> simp_all

/-- A page carrying both a JSON-LD Product object and a captcha form. -/
def cexDocCaptchaProduct : HtmlDoc :=
  { jsonLdScripts := [some (.obj [("@type", .str "Product")])]
    itemtypeAttrs := []
    links := []
    formsAndDivs := [{ isForm := true, action := "/captcha-check", idAttr := "", classes := [] }]
    metaRefresh := false
    scriptCount := 0 }

/-- C4 counterexample: a page containing a JSON-LD Product object (at a
non-generic, non-listing URL) classifies as `BLOCKED`, not `PRODUCT` or
`LISTING_WITH_PRODUCTS`, because it also carries a captcha form and blocked
detection runs first. -/
theorem jsonld_product_blocked_counterexample :
    (some (Json.obj [("@type", Json.str "Product")]) ∈
      cexDocCaptchaProduct.jsonLdScripts) ∧
    (classify_page (some cexDocCaptchaProduct) "" "https://x.com/item5").verdict =
      PageVerdict.blocked := by
  exact ⟨by simp [cexDocCaptchaProduct], by decide⟩

/-- Witness for the amended C4 theorem. -/
theorem jsonld_product_classifies_product_unless_blocked_witness :
    (if is_listing_url "https://x.com/item5" then
      (classify_page (some { cexDocCaptchaProduct with formsAndDivs := [] }) ""
        "https://x.com/item5").verdict = PageVerdict.listing_with_products
     else
      (classify_page (some { cexDocCaptchaProduct with formsAndDivs := [] }) ""
        "https://x.com/item5").verdict = PageVerdict.product) ∧
    1 ≤ (classify_page (some { cexDocCaptchaProduct with formsAndDivs := [] }) ""
      "https://x.com/item5").product_count :=
  jsonld_product_classifies_product_unless_blocked
    { cexDocCaptchaProduct with formsAndDivs := [] } "" "https://x.com/item5"
    (Json.obj [("@type", Json.str "Product")])
    (by simp [cexDocCaptchaProduct]) rfl rfl rfl

/-- The captcha-form detection fires as soon as one form matches a keyword. -/
theorem detect_blocked_of_captcha_form {d : HtmlDoc} (text : String)
    {form : FormDivTag} (hmem : form ∈ d.formsAndDivs)
    (hform : form.isForm = true) (hkw : captchaFormTest form = true) :
    (detect_blocked (some d) text).is_blocked = true := by
  have hany : (d.formsAndDivs.filter (·.isForm)).any captchaFormTest = true :=
    List.any_eq_true.mpr ⟨form, List.mem_filter.mpr ⟨hmem, hform⟩, hkw⟩
  simp only [detect_blocked]
  split_ifs <;> simp_all

/-- C5 (amended): a page with a captcha/verify/challenge-keyword form and
under-200-character text classifies as `BLOCKED` for every URL whose path
does not collapse to a generic root; at a generic root with no product
signals, the source's generic-path check runs first and returns `GENERIC`
instead, so the original "regardless of the page's URL" fails. -/
theorem captcha_form_blocked_off_generic_root
    (d : HtmlDoc) (text url : String) (form : FormDivTag)
    (hmem : form ∈ d.formsAndDivs) (hform : form.isForm = true)
    (hkw : captchaFormTest form = true)
    (_hlen : (pyStrip text).length < 200)
    (hpath : isGenericPath (pyLower (pyUrlparse url).path) = false) :
    (classify_page (some d) text url).verdict = PageVerdict.blocked := by
  have hb := detect_blocked_of_captcha_form text hmem hform hkw
  simp only [classify_page]
  rw [if_neg (by simp [hpath]), if_pos hb]

/-- A page with a captcha form and nothing else. -/
def cexDocCaptchaOnly : HtmlDoc := { cexDocCaptchaProduct with jsonLdScripts := [] }

/-- C5 counterexample: the same captcha-form page with empty text classifies
as `GENERIC` (not `BLOCKED`) when its URL path is the generic root `/`,
because the generic-path check precedes blocked detection; blocked detection
alone would have fired. -/
theorem captcha_form_generic_root_counterexample :
    (classify_page (some cexDocCaptchaOnly) "" "https://x.com/").verdict =
      PageVerdict.generic ∧
    (detect_blocked (some cexDocCaptchaOnly) "").is_blocked = true := by
  exact ⟨rfl, rfl⟩

/-- Witness for the amended C5 theorem. -/
theorem captcha_form_blocked_off_generic_root_witness :
    (classify_page (some cexDocCaptchaOnly) "" "https://x.com/item5").verdict =
      PageVerdict.blocked :=
  captcha_form_blocked_off_generic_root cexDocCaptchaOnly "" "https://x.com/item5"
    { isForm := true, action := "/captcha-check", idAttr := "", classes := [] }
    (by simp [cexDocCaptchaOnly, cexDocCaptchaProduct]) rfl (by decide)
    (by decide) (by decide)

/-! ## Claim theorems: the final correctness pass (`_verify_product_urls`) -/

/-- The per-entry guarantee of the final pass: the stored metadata is kept
unchanged, or the entry was a verified `product` whose preferred
canonical/final URL differs from its key and the re-fetch of that URL
returned status 200, classified `product`, and extracted an SKU equal to the
stored one (both absent included), in which case the metadata is rewritten
to the preferred URL. -/
def entryUnchangedOrPromoted (env : Env) (url : String) (md md' : UrlMeta) : Prop :=
  md' = md ∨
  (md.verdict = some "product" ∧
   ∃ fr : FetchResult,
     (match md.canonical_url with
      | some c => if c ≠ "" ∧ c ≠ url then c else md.final_url
      | none => md.final_url) ≠ url ∧
     env.fetch (match md.canonical_url with
      | some c => if c ≠ "" ∧ c ≠ url then c else md.final_url
      | none => md.final_url) = .ok fr ∧
     fr.status = some 200 ∧
     (fr.classification.getD {}).verdict = some "product" ∧
     md.sku = env.extract_sku fr.html (fr.text.getD "") ∧
     md' = { md with
       url := (match md.canonical_url with
        | some c => if c ≠ "" ∧ c ≠ url then c else md.final_url
        | none => md.final_url)
       final_url := (match md.canonical_url with
        | some c => if c ≠ "" ∧ c ≠ url then c else md.final_url
        | none => md.final_url)
       canonical_url := (match fr.canonical_url with
         | some c => some c
         | none => md.canonical_url)
       sku := env.extract_sku fr.html (fr.text.getD "") })

/-- One `verifyStep` appends exactly one pair under the original key, with
the metadata unchanged or promoted under the full gate conditions. -/
theorem verifyStep_shape (env : Env) (max : Nat) (acc : List (String × UrlMeta))
    (st : ExecState) (kv : String × UrlMeta) :
    ∃ md' st', verifyStep env max (acc, st) kv = (acc ++ [(kv.1, md')], st') ∧
      entryUnchangedOrPromoted env kv.1 kv.2 md' := by
  simp only [verifyStep]
  by_cases h1 : kv.2.verdict ≠ some "product"
  · exact ⟨kv.2, st, by simp [h1], Or.inl rfl⟩
  · push_neg at h1
    rw [if_neg (by simp [h1])]
    by_cases h2 : (match kv.2.canonical_url with
        | some c => if c ≠ "" ∧ c ≠ kv.1 then c else kv.2.final_url
        | none => kv.2.final_url) ≠ kv.1 ∧
        (match kv.2.canonical_url with
        | some c => if c ≠ "" ∧ c ≠ kv.1 then c else kv.2.final_url
        | none => kv.2.final_url) ∉ st.fetchedUrls
    · rw [if_pos h2]
      by_cases h3 : st.fetchedUrls.card < max
      · rw [if_pos h3]
        cases hf : env.fetch (match kv.2.canonical_url with
            | some c => if c ≠ "" ∧ c ≠ kv.1 then c else kv.2.final_url
            | none => kv.2.final_url) with
        | error e => exact ⟨kv.2, _, rfl, Or.inl rfl⟩
        | ok fr =>
          dsimp only
          by_cases h4 : fr.status = some 200
          · rw [if_pos h4]
            by_cases h5 : (fr.classification.getD {}).verdict = some "product"
            · rw [if_pos h5]
              by_cases h6 : kv.2.sku = env.extract_sku fr.html (fr.text.getD "")
              · rw [if_pos h6]
                refine ⟨_, _, rfl, Or.inr ⟨h1, fr, h2.1, hf, h4, h5, h6, rfl⟩⟩
              · rw [if_neg h6]
                exact ⟨kv.2, _, rfl, Or.inl rfl⟩
            · rw [if_neg h5]
              exact ⟨kv.2, _, rfl, Or.inl rfl⟩
          · rw [if_neg h4]
            exact ⟨kv.2, _, rfl, Or.inl rfl⟩
      · rw [if_neg h3]
        exact ⟨kv.2, st, rfl, Or.inl rfl⟩
    · rw [if_neg h2]
      exact ⟨kv.2, st, rfl, Or.inl rfl⟩

/-- The fold of `verifyStep` extends the accumulator entry-by-entry. -/
theorem verify_fold_spec (env : Env) (max : Nat) :
    ∀ (vs : List (String × UrlMeta)) (acc : List (String × UrlMeta)) (st : ExecState),
      ((vs.foldl (verifyStep env max) (acc, st)).1.map Prod.fst =
        acc.map Prod.fst ++ vs.map Prod.fst) ∧
      (∀ p ∈ (vs.foldl (verifyStep env max) (acc, st)).1,
        p ∈ acc ∨ ∃ md, (p.1, md) ∈ vs ∧ entryUnchangedOrPromoted env p.1 md p.2) := by
  intro vs
  induction vs with
  | nil => intro acc st; simp
  | cons kv rest ih =>
    intro acc st
    obtain ⟨md', st', heq, hrel⟩ := verifyStep_shape env max acc st kv
    simp only [List.foldl_cons, heq]
    obtain ⟨ihmap, ihmem⟩ := ih (acc ++ [(kv.1, md')]) st'
    constructor
    · rw [ihmap]; simp
    · intro p hp
      rcases ihmem p hp with hacc | ⟨md, hmd, hrel2⟩
      · rcases List.mem_append.mp hacc with h | h
        · exact Or.inl h
        · right
          have hpkv : p = (kv.1, md') := by simpa using h
          subst hpkv
          exact ⟨kv.2, by simp, hrel⟩
      · exact Or.inr ⟨md, by simp [hmd], hrel2⟩

/-- C7: the final correctness pass never removes an entry — the output keys
are exactly the input keys, in order — and each entry is either kept
unchanged (in particular on any re-fetch failure or SKU mismatch) or
rewritten to its differing preferred canonical/final URL, which happens only
when the re-fetch returned status 200, classified `product`, and the
extracted SKU equals the stored one (or both are absent). -/
theorem final_pass_never_removes_entries (env : Env)
    (vs : List (String × UrlMeta)) (st : ExecState) (max : Nat) :
    ((verify_product_urls env vs st max).1.map Prod.fst = vs.map Prod.fst) ∧
    (∀ p ∈ (verify_product_urls env vs st max).1,
       ∃ md, (p.1, md) ∈ vs ∧ entryUnchangedOrPromoted env p.1 md p.2) := by
  have h := verify_fold_spec env max vs [] st
  simp only [verify_product_urls]
  refine ⟨by simpa using h.1, fun p hp => ?_⟩
  rcases h.2 p hp with hacc | hrest
  · cases hacc
  · exact hrest

/-! ## Claim theorems: the fetch budget -/

/-- `fetchContinue` leaves the fetched-URL set unchanged or adds one URL. -/
theorem fetchContinue_fetched_shape (env : Env) (st : ExecState) (url : String)
    (fr : FetchResult) :
    (∃ e, fetchContinue env st url fr = .error e) ∨
    (∃ r st', fetchContinue env st url fr = .ok (r, st') ∧
      (st'.fetchedUrls = st.fetchedUrls ∨
       ∃ u, st'.fetchedUrls = insert u st.fetchedUrls)) := by
  simp only [fetchContinue]
  by_cases h403 : (fr.status.getD 0 = 403 ∨ fr.status.getD 0 = 401)
  · rw [if_pos h403]
    cases hr : env.render url with
    | error e => exact Or.inl ⟨e, rfl⟩
    | ok rr0 =>
      dsimp only
      split_ifs <;> (try dsimp only) <;>
        first
          | exact Or.inr ⟨_, _, rfl, Or.inl rfl⟩
          | exact Or.inr ⟨_, _, rfl, Or.inr ⟨_, rfl⟩⟩
  · rw [if_neg h403]
    split_ifs <;>
      first
        | exact Or.inr ⟨_, _, rfl, Or.inl rfl⟩
        | exact Or.inr ⟨_, _, rfl, Or.inr ⟨_, rfl⟩⟩

/-- `renderContinue` leaves the fetched-URL set unchanged or adds one URL. -/
theorem renderContinue_fetched_shape (env : Env) (st : ExecState) (url : String)
    (rr : RenderResult) :
    ∃ r st', renderContinue env st url rr = .ok (r, st') ∧
      (st'.fetchedUrls = st.fetchedUrls ∨
       ∃ u, st'.fetchedUrls = insert u st.fetchedUrls) := by
  simp only [renderContinue]
  split_ifs <;>
    first
      | exact ⟨_, _, rfl, Or.inl rfl⟩
      | exact ⟨_, _, rfl, Or.inr ⟨_, rfl⟩⟩

/-- `_execute_tool` leaves the fetched-URL set unchanged, or — only after
passing the budget guard — adds one URL. -/
theorem execute_tool_fetched_shape (env : Env) (name : String) (args : ToolArgs)
    (st : ExecState) (max : Nat) :
    (∃ e, execute_tool env name args st max = .error e) ∨
    (∃ r st', execute_tool env name args st max = .ok (r, st') ∧
      (st'.fetchedUrls = st.fetchedUrls ∨
       (st.fetchedUrls.card < max ∧
        ∃ u, st'.fetchedUrls = insert u st.fetchedUrls))) := by
  simp only [execute_tool]
  by_cases h1 : name = "search_web"
  · rw [if_pos h1]
    dsimp only [cacheGet]
    cases hcv : st.cache (makeKey env "search" (args.query.getD "")) with
    | none =>
      dsimp only
      cases hs : env.search (args.query.getD "") (args.count.getD 5) <;>
        dsimp only <;> (try split_ifs) <;> exact Or.inr ⟨_, _, rfl, Or.inl rfl⟩
    | some cv =>
      cases cv with
      | searchVal r =>
        dsimp only
        by_cases hre : r.isEmpty
        · rw [if_pos hre]
          dsimp only
          cases hs : env.search (args.query.getD "") (args.count.getD 5) <;>
            dsimp only <;> (try split_ifs) <;> exact Or.inr ⟨_, _, rfl, Or.inl rfl⟩
        · rw [if_neg hre]
          dsimp only
          split_ifs
          all_goals exact Or.inr ⟨_, _, rfl, Or.inl rfl⟩
      | fetchVal r =>
        dsimp only
        cases hs : env.search (args.query.getD "") (args.count.getD 5) <;>
          dsimp only <;> (try split_ifs) <;> exact Or.inr ⟨_, _, rfl, Or.inl rfl⟩
      | renderVal r =>
        dsimp only
        cases hs : env.search (args.query.getD "") (args.count.getD 5) <;>
          dsimp only <;> (try split_ifs) <;> exact Or.inr ⟨_, _, rfl, Or.inl rfl⟩
  · rw [if_neg h1]
    by_cases h2 : name = "fetch_url"
    · rw [if_pos h2]
      by_cases hurl : args.url.getD "" = ""
      · rw [if_pos hurl]
        exact Or.inr ⟨_, _, rfl, Or.inl rfl⟩
      · rw [if_neg hurl]
        by_cases hbudget : st.fetchedUrls.card ≥ max
        · rw [if_pos hbudget]
          exact Or.inr ⟨_, _, rfl, Or.inl rfl⟩
        · rw [if_neg hbudget]
          push_neg at hbudget
          dsimp only [cacheGet]
          have hstep : ∀ st2 : ExecState, st2.fetchedUrls = st.fetchedUrls →
              ∀ fr2, (∃ e, fetchContinue env st2 (args.url.getD "") fr2 = .error e) ∨
                (∃ r st', fetchContinue env st2 (args.url.getD "") fr2 = .ok (r, st') ∧
                  (st'.fetchedUrls = st.fetchedUrls ∨
                   (st.fetchedUrls.card < max ∧
                    ∃ u, st'.fetchedUrls = insert u st.fetchedUrls))) := by
            intro st2 hst2 fr2
            rcases fetchContinue_fetched_shape env st2 (args.url.getD "") fr2 with
              ⟨e, he⟩ | ⟨r, st', heq, hrel⟩
            · exact Or.inl ⟨e, he⟩
            · refine Or.inr ⟨r, st', heq, ?_⟩
              rcases hrel with h | ⟨u, hu⟩
              · exact Or.inl (h.trans hst2)
              · exact Or.inr ⟨hbudget, u, by rw [hu, hst2]⟩
          cases hcv : st.cache (makeKey env "fetch" (args.url.getD "")) with
          | none =>
            dsimp only
            cases hf : env.fetch (args.url.getD "") with
            | error e => exact Or.inl ⟨e, rfl⟩
            | ok fr =>
              dsimp only
              split_ifs <;> (apply hstep; rfl)
          | some cv =>
            cases cv <;> dsimp only <;> first
              | (apply hstep; rfl)
              | (cases hf : env.fetch (args.url.getD "") with
                 | error e => exact Or.inl ⟨e, rfl⟩
                 | ok fr =>
                   dsimp only
                   split_ifs <;> (apply hstep; rfl))
    · rw [if_neg h2]
      by_cases h3 : name = "render_url"
      · rw [if_pos h3]
        by_cases hurl : args.url.getD "" = ""
        · rw [if_pos hurl]
          exact Or.inr ⟨_, _, rfl, Or.inl rfl⟩
        · rw [if_neg hurl]
          by_cases hbudget : st.fetchedUrls.card ≥ max
          · rw [if_pos hbudget]
            exact Or.inr ⟨_, _, rfl, Or.inl rfl⟩
          · rw [if_neg hbudget]
            push_neg at hbudget
            dsimp only [cacheGet]
            have hstep : ∀ st2 : ExecState, st2.fetchedUrls = st.fetchedUrls →
                ∀ rr2, ∃ r st', renderContinue env st2 (args.url.getD "") rr2 = .ok (r, st') ∧
                  (st'.fetchedUrls = st.fetchedUrls ∨
                   (st.fetchedUrls.card < max ∧
                    ∃ u, st'.fetchedUrls = insert u st.fetchedUrls)) := by
              intro st2 hst2 rr2
              obtain ⟨r, st', heq, hrel⟩ := renderContinue_fetched_shape env st2 (args.url.getD "") rr2
              refine ⟨r, st', heq, ?_⟩
              rcases hrel with h | ⟨u, hu⟩
              · exact Or.inl (h.trans hst2)
              · exact Or.inr ⟨hbudget, u, by rw [hu, hst2]⟩
            cases hcv : st.cache (makeKey env "render" (args.url.getD "")) with
            | none =>
              dsimp only
              cases hf : env.render (args.url.getD "") with
              | error e => exact Or.inl ⟨e, rfl⟩
              | ok rr0 =>
                dsimp only
                split_ifs <;> (refine Or.inr ?_; apply hstep; rfl)
            | some cv =>
              cases cv <;> dsimp only <;> first
                | (refine Or.inr ?_; apply hstep; rfl)
                | (cases hf : env.render (args.url.getD "") with
                   | error e => exact Or.inl ⟨e, rfl⟩
                   | ok rr0 =>
                     dsimp only
                     split_ifs <;> (refine Or.inr ?_; apply hstep; rfl))
      · rw [if_neg h3]
        exact Or.inr ⟨_, _, rfl, Or.inl rfl⟩

/-- One step of the final pass keeps the fetched count within the budget
(the re-fetch insert is guarded by `card < max`). -/
theorem verifyStep_card (env : Env) (max : Nat) (acc : List (String × UrlMeta))
    (st : ExecState) (kv : String × UrlMeta) (h : st.fetchedUrls.card ≤ max) :
    (verifyStep env max (acc, st) kv).2.fetchedUrls.card ≤ max := by
  simp only [verifyStep]
  split_ifs <;> (try exact h)
  cases hf : env.fetch (match kv.2.canonical_url with
      | some c => if c ≠ "" ∧ c ≠ kv.1 then c else kv.2.final_url
      | none => kv.2.final_url) with
  | error e => exact h
  | ok fr =>
    dsimp only
    split_ifs <;> (try exact h) <;>
      exact le_trans (Finset.card_insert_le _ _) (by omega)

/-- The final pass keeps the fetched count within the budget. -/
theorem verify_product_urls_card (env : Env) (vs : List (String × UrlMeta))
    (st : ExecState) (max : Nat) (h : st.fetchedUrls.card ≤ max) :
    (verify_product_urls env vs st max).2.fetchedUrls.card ≤ max := by
  simp only [verify_product_urls]
  suffices H : ∀ (vs : List (String × UrlMeta)) (acc : List (String × UrlMeta))
      (st : ExecState), st.fetchedUrls.card ≤ max →
      (vs.foldl (verifyStep env max) (acc, st)).2.fetchedUrls.card ≤ max from
    H vs [] st h
  intro vs
  induction vs with
  | nil => intro acc st h; exact h
  | cons kv rest ih =>
    intro acc st h
    simp only [List.foldl_cons]
    obtain ⟨md', st', heq, _⟩ := verifyStep_shape env max acc st kv
    have hc := verifyStep_card env max acc st kv h
    rw [heq] at hc ⊢
    exact ih _ _ hc

/-- C3: the fetched-page count never exceeds `maxPagesFetched` — every tool
execution and the final pass preserve the bound, additions being guarded by
`card < max` — and once the budget is reached, a `fetch_url` or `render_url`
call with a URL returns `success: false` with the budget message and
leaves the state (fetched set, cache, I/O event log) untouched: no network
or cache I/O happens for that page. -/
theorem fetch_budget_never_exceeded :
    (∀ (env : Env) (args : ToolArgs) (st : ExecState) (max : Nat),
      args.url.getD "" ≠ "" → st.fetchedUrls.card ≥ max →
      execute_tool env "fetch_url" args st max =
        .ok ({ content := s!"Maximum pages fetched ({max}). Cannot fetch more.",
               success := false }, st)) ∧
    (∀ (env : Env) (args : ToolArgs) (st : ExecState) (max : Nat),
      args.url.getD "" ≠ "" → st.fetchedUrls.card ≥ max →
      execute_tool env "render_url" args st max =
        .ok ({ content := s!"Maximum pages fetched ({max}). Cannot render more.",
               success := false }, st)) ∧
    (∀ (env : Env) (name : String) (args : ToolArgs) (st : ExecState)
       (max : Nat) (r : ToolResult) (st' : ExecState),
      execute_tool env name args st max = .ok (r, st') →
      st.fetchedUrls.card ≤ max → st'.fetchedUrls.card ≤ max) ∧
    (∀ (env : Env) (vs : List (String × UrlMeta)) (st : ExecState) (max : Nat),
      st.fetchedUrls.card ≤ max →
      (verify_product_urls env vs st max).2.fetchedUrls.card ≤ max) := by
  refine ⟨?_, ?_, ?_, ?_⟩
  · intro env args st max hurl hbudget
    simp [execute_tool, hurl, hbudget]
  · intro env args st max hurl hbudget
    simp [execute_tool, hurl, hbudget]
  · intro env name args st max r st' h hle
    rcases execute_tool_fetched_shape env name args st max with ⟨e, he⟩ | ⟨r0, st0, heq, hrel⟩
    · rw [he] at h; cases h
    · rw [heq] at h
      obtain ⟨-, rfl⟩ : r0 = r ∧ st0 = st' := by
        have := Except.ok.inj h
        exact ⟨congrArg Prod.fst this, congrArg Prod.snd this⟩
      rcases hrel with hsame | ⟨hlt, u, hu⟩
      · rw [hsame]; exact hle
      · rw [hu]
        exact le_trans (Finset.card_insert_le _ _) (by omega)
  · exact fun env vs st max h => verify_product_urls_card env vs st max h

/-! ## Claim theorems: the 403 render fallback -/

/-- The gate accepts `PRODUCT` and `LISTING_WITH_PRODUCTS` at status 200 for
every URL (the generic-root restriction exempts exactly these verdicts). -/
theorem is_good_url_accepts_product (u : String) (v : PageVerdict)
    (hv : v = PageVerdict.product ∨ v = PageVerdict.listing_with_products) :
    is_good_url 200 u v = true := by
  rcases hv with rfl | rfl <;> simp [is_good_url]

/-- In the 403/401 branch, every successful execution has logged the render
call for the same URL. -/
theorem fetchContinue_renderNet (env : Env) (st : ExecState) (url : String)
    (fr : FetchResult)
    (h403 : fr.status.getD 0 = 403 ∨ fr.status.getD 0 = 401) :
    ∀ r st', fetchContinue env st url fr = .ok (r, st') →
      IOEvent.renderNet url ∈ st'.events := by
  intro r st' h
  simp only [fetchContinue] at h
  rw [if_pos h403] at h
  cases hr : env.render url with
  | error e => rw [hr] at h; cases h
  | ok rr0 =>
    rw [hr] at h
    dsimp only at h
    split_ifs at h <;>
      (obtain ⟨-, rfl⟩ : _ ∧ _ = st' := by
        have := Except.ok.inj h
        exact ⟨congrArg Prod.fst this, congrArg Prod.snd this⟩) <;>
      simp [cacheSetVal]

/-- A 403 fetch whose fallback render yields neither HTML nor text fails
with the fixed rejection reason. -/
theorem fetchContinue_403_render_failed (env : Env) (st : ExecState)
    (url : String) (fr : FetchResult) (rr : RenderResult)
    (h403 : fr.status.getD 0 = 403 ∨ fr.status.getD 0 = 401)
    (hrender : env.render url = .ok rr)
    (hh : rr.html = "") (ht : textTruthy rr.text = false) :
    ∃ st', fetchContinue env st url fr =
      .ok ({ content := s!"Failed to render {url} after 403 error. Page may be blocked or timeout occurred.",
             success := false, url := some url, is_verified := some false,
             rejection_reason := some "Failed to render after 403" }, st') := by
  simp only [fetchContinue]
  rw [if_pos h403, hrender]
  dsimp only
  have hc1 : ¬ (rr.html ≠ "" ∨ textTruthy rr.text = true) := by simp [hh, ht]
  rw [if_neg hc1]
  dsimp only
  have hc2 : ¬ textTruthy rr.text = true ∧ rr.html = "" := ⟨by simp [ht], hh⟩
  rw [if_pos hc2]
  exact ⟨_, rfl⟩

/-- A 403 fetch whose fallback render produces content that classifies
`PRODUCT` or `LISTING_WITH_PRODUCTS` is marked verified, with a
verification reason recording the fallback, and the URL enters the fetched
set. -/
theorem fetchContinue_403_verified (env : Env) (st : ExecState) (url : String)
    (fr : FetchResult) (rr : RenderResult) (cls : Classification)
    (h403 : fr.status.getD 0 = 403 ∨ fr.status.getD 0 = 401)
    (hrender : env.render url = .ok rr)
    (hcls : rr.classification = some cls)
    (hv : parseVerdict (cls.verdict.getD "error") = PageVerdict.product ∨
          parseVerdict (cls.verdict.getD "error") = PageVerdict.listing_with_products)
    (hcontent : rr.html ≠ "" ∨ textTruthy rr.text = true) :
    ∃ r st', fetchContinue env st url fr = .ok (r, st') ∧
      r.is_verified = some true ∧
      r.verification_reason =
        some ("Rendered after 403: " ++ cls.reason.getD "Page verified successfully") ∧
      r.verdict = some (parseVerdict (cls.verdict.getD "error")).val ∧
      url ∈ st'.fetchedUrls := by
  simp only [fetchContinue]
  rw [if_pos h403, hrender]
  dsimp only
  rw [if_pos hcontent]
  by_cases hfill : (rr.html ≠ "" ∧ ¬ textTruthy rr.text = true)
  · rw [if_pos hfill]
    dsimp only
    rw [hcls]
    rw [Option.getD_some]
    rw [if_neg (by simp [hfill.1])]
    rw [if_neg (by simp [is_good_url_accepts_product url _ hv])]
    exact ⟨_, _, rfl, rfl, rfl, rfl, Finset.mem_insert_self _ _⟩
  · rw [if_neg hfill]
    dsimp only
    rw [hcls]
    rw [Option.getD_some]
    have hne : ¬ (¬ textTruthy rr.text = true ∧ rr.html = "") := by
      rcases hcontent with hc | hc
      · exact fun hx => hc hx.2
      · exact fun hx => hx.1 hc
    rw [if_neg hne]
    rw [if_neg (by simp [is_good_url_accepts_product url _ hv])]
    exact ⟨_, _, rfl, rfl, rfl, rfl, Finset.mem_insert_self _ _⟩

/-- A cache-missing `fetch_url` call under budget reduces to
`fetchContinue` on the fetched result (with the extracted text filled in
when HTML is present). -/
theorem execute_tool_fetch_dispatch (env : Env) (args : ToolArgs)
    (st : ExecState) (max : Nat) (url : String) (fr : FetchResult)
    (hurl : args.url = some url) (hne : url ≠ "")
    (hbudget : ¬ st.fetchedUrls.card ≥ max)
    (hmiss : st.cache (makeKey env "fetch" url) = none)
    (hfetch : env.fetch url = .ok fr) :
    ∃ st2 fr2, execute_tool env "fetch_url" args st max = fetchContinue env st2 url fr2 ∧
      fr2.status = fr.status ∧ fr2.classification = fr.classification := by
  have hu : args.url.getD "" = url := by rw [hurl]; rfl
  simp only [execute_tool, hu]
  rw [if_neg hne, if_neg hbudget]
  dsimp only [cacheGet]
  rw [hmiss]
  dsimp only
  rw [hfetch]
  dsimp only
  by_cases hh : fr.html ≠ ""
  · rw [if_pos hh]
    exact ⟨_, _, rfl, rfl, rfl⟩
  · rw [if_neg hh]
    exact ⟨_, _, rfl, rfl, rfl⟩

/-- C6: a `fetch_url` call whose fetch returns HTTP 403 (cache miss,
within budget) automatically falls back to rendering the same URL inside
the same tool execution — no further model turn — logging the render call;
a render with neither HTML nor text fails with rejection reason
`Failed to render after 403`, and a render classifying `PRODUCT` (or
`LISTING_WITH_PRODUCTS`) passes the gate and is marked verified with a
fallback-noting verification reason. -/
theorem fetch_403_fallback (env : Env) (args : ToolArgs) (st : ExecState)
    (max : Nat) (url : String) (fr : FetchResult)
    (hurl : args.url = some url) (hne : url ≠ "")
    (hbudget : ¬ st.fetchedUrls.card ≥ max)
    (hmiss : st.cache (makeKey env "fetch" url) = none)
    (hfetch : env.fetch url = .ok fr)
    (h403 : fr.status = some 403) :
    (∀ r st', execute_tool env "fetch_url" args st max = .ok (r, st') →
       IOEvent.renderNet url ∈ st'.events) ∧
    (∀ rr, env.render url = .ok rr → rr.html = "" → textTruthy rr.text = false →
       ∃ st', execute_tool env "fetch_url" args st max =
         .ok ({ content := s!"Failed to render {url} after 403 error. Page may be blocked or timeout occurred.",
                success := false, url := some url, is_verified := some false,
                rejection_reason := some "Failed to render after 403" }, st')) ∧
    (∀ rr cls, env.render url = .ok rr → rr.classification = some cls →
       (parseVerdict (cls.verdict.getD "error") = PageVerdict.product ∨
        parseVerdict (cls.verdict.getD "error") = PageVerdict.listing_with_products) →
       (rr.html ≠ "" ∨ textTruthy rr.text = true) →
       ∃ r st', execute_tool env "fetch_url" args st max = .ok (r, st') ∧
         r.is_verified = some true ∧
         r.verification_reason =
           some ("Rendered after 403: " ++ cls.reason.getD "Page verified successfully") ∧
         url ∈ st'.fetchedUrls) := by
  obtain ⟨st2, fr2, hred, hst, hcl⟩ :=
    execute_tool_fetch_dispatch env args st max url fr hurl hne hbudget hmiss hfetch
  have h403' : fr2.status.getD 0 = 403 ∨ fr2.status.getD 0 = 401 := by
    rw [hst, h403]; exact Or.inl rfl
  refine ⟨?_, ?_, ?_⟩
  · intro r st' h
    rw [hred] at h
    exact fetchContinue_renderNet env st2 url fr2 h403' r st' h
  · intro rr hrr hh ht
    obtain ⟨st', h⟩ := fetchContinue_403_render_failed env st2 url fr2 rr h403' hrr hh ht
    exact ⟨st', by rw [hred, h]⟩
  · intro rr cls hrr hcls hv hcontent
    obtain ⟨r, st', h, h1, h2, h3, h4⟩ :=
      fetchContinue_403_verified env st2 url fr2 rr cls h403' hrr hcls hv hcontent
    exact ⟨r, st', by rw [hred, h], h1, h2, h4⟩

/-- A concrete environment whose fetch always returns HTTP 403 and whose
render yields an empty page, used to instantiate the fallback theorem. -/
def envC6 : Env :=
  { chat := fun _ _ => .error "unused"
    search := fun _ _ => .error "unused"
    fetch := fun _ => .ok { status := some 403 }
    render := fun _ => .ok {}
    extract_text := fun _ => ""
    extract_sku := fun _ _ => none
    md5Hex := fun s => s }

/-- The empty executor state: nothing fetched, empty cache, no events. -/
def stC6 : ExecState := { fetchedUrls := ∅, cache := fun _ => none, events := [] }

theorem fetch_403_fallback_witness :
    ¬ stC6.fetchedUrls.card ≥ 8 ∧
    ∃ st', execute_tool envC6 "fetch_url" { url := some "https://a.com/p" } stC6 8 =
      .ok ({ content := "Failed to render https://a.com/p after 403 error. Page may be blocked or timeout occurred.",
             success := false, url := some "https://a.com/p", is_verified := some false,
             rejection_reason := some "Failed to render after 403" }, st') :=
  ⟨by decide,
   (fetch_403_fallback envC6 { url := some "https://a.com/p" } stC6 8 "https://a.com/p"
      { status := some 403 } rfl (by decide) (by decide) rfl rfl rfl).2.1
     {} rfl rfl rfl⟩

/-! ## The fatal LLM-failure path -/

/-- A chat failure at the current step aborts `runAux` at once, returning
the exception text and the state's `sources`/`debugTraces` as accumulated. -/
theorem runAux_chat_error (env : Env) (maxPagesFetched : Nat)
    (n stepIdx : Nat) (st : RunState) (e : String)
    (h : env.chat stepIdx st.messages = .error e) :
    runAux env maxPagesFetched (n + 1) stepIdx st =
      .ok { answer := s!"Error communicating with LLM: {e}",
            sources := st.sources, debug := st.debugTraces } := by
  simp only [runAux]
  rw [h]

/-- `processToolCall` never touches the `sources` field: the source of
`run()` initializes `sources = []` and no statement appends to it. -/
theorem processToolCall_sources (env : Env) (maxPagesFetched stepIdx : Nat)
    (st : RunState) (tc : ToolCallRec) (st' : RunState)
    (h : processToolCall env maxPagesFetched stepIdx st tc = .ok st') :
    st'.sources = st.sources := by
  unfold processToolCall at h
  cases htc : tc.argsParsed with
  | none => rw [htc] at h; cases h; rfl
  | some fa =>
    rw [htc] at h
    dsimp only at h
    cases hex : execute_tool env tc.name fa st.exec maxPagesFetched with
    | error e => rw [hex] at h; cases h
    | ok pr =>
      obtain ⟨tr, ex⟩ := pr
      rw [hex] at h
      dsimp only at h
      repeat' (first | split at h | split_ifs at h)
      all_goals (cases h; rfl)

/-- The tool-call record of the C9 counterexample run. -/
def tCallC9 : ToolCallRec :=
  { id := some "c1"
    name := "fetch_url"
    argumentsRaw := "x"
    argsParsed := some { url := some "https://a.com/p1" } }

/-- The C9 counterexample environment: step 0 issues a `fetch_url` call
that verifies `https://a.com/p1`; step 1 either raises (`failAt1 = true`)
or answers normally, exposing that the verified set was non-empty. -/
def envC9 (failAt1 : Bool) : Env :=
  { chat := fun step _msgs =>
      if step = 0 then .ok { content := none, toolCalls := [tCallC9] }
      else if failAt1 then .error "boom"
      else .ok { content := some "done: https://a.com/p1", toolCalls := [] }
    search := fun _ _ => .error "no"
    fetch := fun _ => .ok { status := some 200
                            final_url := some "https://a.com/p1"
                            html := "<x>"
                            classification := some { verdict := some "product"
                                                     reason := some "ok" } }
    render := fun _ => .error "no"
    extract_text := fun _ => "T"
    extract_sku := fun _ _ => some "S1"
    md5Hex := fun s => s }

/-- The debug entry produced by the counterexample's step-0 tool call. -/
def dbgC9 : DebugEntry :=
  { step := 1, tool := "fetch_url"
    args := { url := some "https://a.com/p1" }
    result_length := 28, success := true }

theorem llm_failure_sources_counterexample :
    run (envC9 true) "find" 5 3 (fun _ => none) =
      .ok { answer := "Error communicating with LLM: boom",
            sources := [], debug := [dbgC9] } ∧
    run (envC9 false) "find" 5 3 (fun _ => none) =
      .ok { answer := "done: https://a.com/p1",
            sources := [{ url := "https://a.com/p1", title := "" }],
            debug := [dbgC9] } :=
  ⟨rfl, rfl⟩

/-- C9 (amended): an LLM chat failure is the only fatal path: `runAux`
aborts at once and returns the exception text as the answer with the
debug traces accumulated so far, but the `sources` field it returns is
the run state's `sources` list, which `run()` initializes empty and which
no step of the loop ever appends to — so an aborted run always reports
`sources = []`, even when URLs had been verified before the failure. -/
theorem llm_failure_abort (env : Env) (maxPagesFetched : Nat) :
    (∀ n stepIdx st e, env.chat stepIdx st.messages = .error e →
       runAux env maxPagesFetched (n + 1) stepIdx st =
         .ok { answer := s!"Error communicating with LLM: {e}",
               sources := st.sources, debug := st.debugTraces }) ∧
    (∀ stepIdx st tc st',
       processToolCall env maxPagesFetched stepIdx st tc = .ok st' →
       st'.sources = st.sources) ∧
    (∀ userPrompt maxSteps cache e,
       env.chat 0 [.system SYSTEM_PROMPT, .user userPrompt] = .error e →
       run env userPrompt (maxSteps + 1) maxPagesFetched cache =
         .ok { answer := s!"Error communicating with LLM: {e}",
               sources := [], debug := [] }) :=
  ⟨fun n stepIdx st e h => runAux_chat_error env maxPagesFetched n stepIdx st e h,
   fun stepIdx st tc st' h =>
     processToolCall_sources env maxPagesFetched stepIdx st tc st' h,
   fun _userPrompt maxSteps _cache e h =>
     runAux_chat_error env maxPagesFetched maxSteps 0 _ e h⟩

/-! ## Idempotence of the sanitizer -/

/-- When every URL of `us` normalizes into the verified set, the rewrite
loop leaves the answer untouched. -/
theorem foldl_sanitizeStep_noop (V : List String) (us : List (List Char))
    (h : ∀ u ∈ us,
      V.contains (clean_url (String.mk (pyRstrip u ".,;!?)".data)) true) = true) :
    ∀ acc, us.foldl (sanitizeStep V) acc = acc := by
  induction us with
  | nil => intro acc; rfl
  | cons u us ih =>
    intro acc
    have hu := h u (List.mem_cons_self u us)
    have hstep : sanitizeStep V acc u = acc := by
      unfold sanitizeStep
      rw [if_pos hu]
    simp only [List.foldl_cons, hstep]
    exact ih (fun v hv => h v (List.mem_cons_of_mem _ hv)) acc

/-- The sanitizer is a no-op on an answer all of whose URL-shaped
substrings normalize (trailing-punctuation trim plus `clean_url`) into the
verified set. -/
theorem sanitize_output_noop (a : String) (V : List String)
    (h : ∀ u ∈ findUrls a.data,
      V.contains (clean_url (String.mk (pyRstrip u ".,;!?)".data)) true) = true) :
    sanitize_output a V = a := by
  obtain ⟨l⟩ := a
  unfold sanitize_output
  rw [foldl_sanitizeStep_noop V _ h l]

theorem sanitize_idempotence_counterexample :
    sanitize_output "https://a.com/x https://a.com/xy" ["https://a.com/v"] =
      "https://a.com/v https://a.com/vy" ∧
    sanitize_output (sanitize_output "https://a.com/x https://a.com/xy"
        ["https://a.com/v"]) ["https://a.com/v"] =
      "https://a.com/v https://a.com/v" := by
  exact ⟨rfl, rfl⟩

/-- C8 (amended): the sanitizer is not idempotent in general (the
substitution `answer.replace(url, replacement)` can corrupt a longer URL
sharing the replaced one as a prefix, leaving a URL that a second pass
rewrites differently); it is idempotent on every answer whose sanitized
form only contains URLs that normalize into the verified set. -/
theorem sanitize_idempotent_when_resolved (a : String) (V : List String)
    (h : ∀ u ∈ findUrls (sanitize_output a V).data,
      V.contains (clean_url (String.mk (pyRstrip u ".,;!?)".data)) true) = true) :
    sanitize_output (sanitize_output a V) V = sanitize_output a V :=
  sanitize_output_noop (sanitize_output a V) V h

/-! ## Word-level specification of the sanitizer

The corrected guarantee of `_sanitize_output` is proved for answers that
are space-separated sequences of words, each word either a URL-shaped
token or free of the substring `http`, with no found URL occurring inside
another found URL or inside a verified URL.  (The counterexample shows the
guarantee fails without the overlap conditions.) -/

/-- The words of an answer, joined by single spaces. -/
def joinWords : List (List Char) → List Char
  | [] => []
  | [w] => w
  | w :: ws => w ++ ' ' :: joinWords ws

/-- A word entirely matched by the sanitizer's URL regex: an `https?://`
scheme followed by a non-empty run of URL characters reaching the word's
end. -/
def urlWordB (w : List Char) : Bool :=
  match schemeLenAt w with
  | 0 => false
  | k + 1 => !(w.drop (k + 1)).isEmpty && (w.drop (k + 1)).all urlChar

/-- Substring (infix) test on character lists. -/
def infixB (p : List Char) : List Char → Bool
  | [] => p.isEmpty
  | c :: cs => p.isPrefixOf (c :: cs) || infixB p cs

/-- The sanitizer's normalization of one found URL: trim trailing
punctuation, then `clean_url`. -/
def normalizeUrl (u : List Char) : String :=
  clean_url (String.mk (pyRstrip u ".,;!?)".data)) true

/-- What one found URL becomes: itself when its normalization is verified,
else the first verified URL on the same netloc, else the marker. -/
def resolveUrl (V : List String) (u : List Char) : List Char :=
  let normalized := normalizeUrl u
  if V.contains normalized then u
  else
    match V.find? (fun v => (pyUrlparse v).netloc = (pyUrlparse normalized).netloc) with
    | some replacement => replacement.data
    | none => REMOVED_MARKER.data

/-- A word's value after the URLs in `processed` have been rewritten. -/
def wordAfter (V : List String) (processed : List (List Char)) (w : List Char) :
    List Char :=
  if w ∈ processed then resolveUrl V w else w

/-- `replaceFuel` ignores fuel beyond the subject's length. -/
theorem replaceFuel_congr :
    ∀ (f1 f2 : Nat) (s o n : List Char), s.length ≤ f1 → s.length ≤ f2 →
      replaceFuel f1 s o n = replaceFuel f2 s o n := by
  intro f1
  induction f1 with
  | zero =>
    intro f2 s o n h1 _h2
    have : s = [] := List.eq_nil_of_length_eq_zero (Nat.le_zero.mp h1)
    subst this
    cases f2 <;> rfl
  | succ f1 ih =>
    intro f2 s o n h1 h2
    match s, f2 with
    | [], 0 => rfl
    | [], f2 + 1 => rfl
    | c :: cs, 0 => simp at h2
    | c :: cs, f2 + 1 =>
      match o with
      | [] =>
        show c :: replaceFuel f1 cs [] n = c :: replaceFuel f2 cs [] n
        rw [ih f2 cs [] n (Nat.le_of_succ_le_succ h1) (Nat.le_of_succ_le_succ h2)]
      | o' :: os =>
        show (if (o' :: os).isPrefixOf (c :: cs) = true then
                n ++ replaceFuel f1 ((c :: cs).drop (o' :: os).length) (o' :: os) n
              else c :: replaceFuel f1 cs (o' :: os) n) =
             (if (o' :: os).isPrefixOf (c :: cs) = true then
                n ++ replaceFuel f2 ((c :: cs).drop (o' :: os).length) (o' :: os) n
              else c :: replaceFuel f2 cs (o' :: os) n)
        have hd : ((c :: cs).drop (o' :: os).length).length ≤ cs.length := by
          simp only [List.length_drop, List.length_cons]
          omega
        by_cases hp : (o' :: os).isPrefixOf (c :: cs) = true
        · rw [if_pos hp, if_pos hp,
            ih f2 _ _ n (Nat.le_trans hd (Nat.le_of_succ_le_succ h1))
              (Nat.le_trans hd (Nat.le_of_succ_le_succ h2))]
        · rw [if_neg hp, if_neg hp,
            ih f2 cs _ n (Nat.le_of_succ_le_succ h1) (Nat.le_of_succ_le_succ h2)]

/-- Any sufficient fuel computes `replaceL`. -/
theorem replaceFuel_eq (fuel : Nat) (s o n : List Char) (h : s.length ≤ fuel) :
    replaceFuel fuel s o n = replaceL s o n :=
  replaceFuel_congr fuel s.length s o n h (Nat.le_refl _)

/-- Unfolding `replaceL` at a match position. -/
theorem replaceL_cons_pos (c : Char) (cs os n : List Char) (o : Char)
    (hp : (o :: os).isPrefixOf (c :: cs) = true) :
    replaceL (c :: cs) (o :: os) n =
      n ++ replaceL ((c :: cs).drop (o :: os).length) (o :: os) n := by
  show (if (o :: os).isPrefixOf (c :: cs) = true then
          n ++ replaceFuel cs.length ((c :: cs).drop (o :: os).length) (o :: os) n
        else c :: replaceFuel cs.length cs (o :: os) n) = _
  rw [if_pos hp, replaceFuel_eq]
  simp only [List.length_drop, List.length_cons]
  omega

/-- Unfolding `replaceL` at a non-match position. -/
theorem replaceL_cons_neg (c : Char) (cs os n : List Char) (o : Char)
    (hp : ¬ (o :: os).isPrefixOf (c :: cs) = true) :
    replaceL (c :: cs) (o :: os) n = c :: replaceL cs (o :: os) n := by
  show (if (o :: os).isPrefixOf (c :: cs) = true then
          n ++ replaceFuel cs.length ((c :: cs).drop (o :: os).length) (o :: os) n
        else c :: replaceFuel cs.length cs (o :: os) n) = _
  rw [if_neg hp]
  rfl

/-- `findUrlsFuel` ignores fuel beyond the subject's length. -/
theorem findUrlsFuel_congr :
    ∀ (f1 f2 : Nat) (s : List Char), s.length ≤ f1 → s.length ≤ f2 →
      findUrlsFuel f1 s = findUrlsFuel f2 s := by
  intro f1
  induction f1 with
  | zero =>
    intro f2 s h1 _h2
    have : s = [] := List.eq_nil_of_length_eq_zero (Nat.le_zero.mp h1)
    subst this
    cases f2 <;> rfl
  | succ f1 ih =>
    intro f2 s h1 h2
    match s, f2 with
    | [], 0 => rfl
    | [], f2 + 1 => rfl
    | c :: cs, 0 => simp at h2
    | c :: cs, f2 + 1 =>
      show (match schemeLenAt (c :: cs) with
            | 0 => findUrlsFuel f1 cs
            | k0 + 1 =>
              let rest := (c :: cs).drop (k0 + 1)
              let run := rest.takeWhile urlChar
              if run.isEmpty then findUrlsFuel f1 cs
              else ((c :: cs).take (k0 + 1) ++ run) :: findUrlsFuel f1 (rest.drop run.length)) =
           (match schemeLenAt (c :: cs) with
            | 0 => findUrlsFuel f2 cs
            | k0 + 1 =>
              let rest := (c :: cs).drop (k0 + 1)
              let run := rest.takeWhile urlChar
              if run.isEmpty then findUrlsFuel f2 cs
              else ((c :: cs).take (k0 + 1) ++ run) :: findUrlsFuel f2 (rest.drop run.length))
      have hcs1 : cs.length ≤ f1 := Nat.le_of_succ_le_succ h1
      have hcs2 : cs.length ≤ f2 := Nat.le_of_succ_le_succ h2
      cases hk : schemeLenAt (c :: cs) with
      | zero => exact ih f2 cs hcs1 hcs2
      | succ k0 =>
        dsimp only
        have hd : (((c :: cs).drop (k0 + 1)).drop
            (((c :: cs).drop (k0 + 1)).takeWhile urlChar).length).length ≤ cs.length := by
          simp only [List.length_drop, List.length_cons]
          omega
        by_cases hrun : (((c :: cs).drop (k0 + 1)).takeWhile urlChar).isEmpty = true
        · rw [if_pos hrun, if_pos hrun]
          exact ih f2 cs hcs1 hcs2
        · rw [if_neg hrun, if_neg hrun,
            ih f2 _ (Nat.le_trans hd hcs1) (Nat.le_trans hd hcs2)]

/-- Any sufficient fuel computes `findUrls`. -/
theorem findUrlsFuel_eq (fuel : Nat) (s : List Char) (h : s.length ≤ fuel) :
    findUrlsFuel fuel s = findUrls s :=
  findUrlsFuel_congr fuel s.length s h (Nat.le_refl _)

/-- The scanner skips a character that starts no scheme. -/
theorem findUrls_cons_zero (c : Char) (cs : List Char)
    (h : schemeLenAt (c :: cs) = 0) :
    findUrls (c :: cs) = findUrls cs := by
  show (match schemeLenAt (c :: cs) with
        | 0 => findUrlsFuel cs.length cs
        | k0 + 1 =>
          let rest := (c :: cs).drop (k0 + 1)
          let run := rest.takeWhile urlChar
          if run.isEmpty then findUrlsFuel cs.length cs
          else ((c :: cs).take (k0 + 1) ++ run) :: findUrlsFuel cs.length (rest.drop run.length)) = _
  rw [h]
  rfl

/-- The scanner takes a greedy match at a scheme with a non-empty run. -/
theorem findUrls_cons_pos (c : Char) (cs : List Char) (k0 : Nat)
    (h : schemeLenAt (c :: cs) = k0 + 1)
    (hrun : ¬ (((c :: cs).drop (k0 + 1)).takeWhile urlChar).isEmpty = true) :
    findUrls (c :: cs) =
      ((c :: cs).take (k0 + 1) ++ ((c :: cs).drop (k0 + 1)).takeWhile urlChar) ::
        findUrls (((c :: cs).drop (k0 + 1)).drop
          (((c :: cs).drop (k0 + 1)).takeWhile urlChar).length) := by
  show (match schemeLenAt (c :: cs) with
        | 0 => findUrlsFuel cs.length cs
        | k0 + 1 =>
          let rest := (c :: cs).drop (k0 + 1)
          let run := rest.takeWhile urlChar
          if run.isEmpty then findUrlsFuel cs.length cs
          else ((c :: cs).take (k0 + 1) ++ run) :: findUrlsFuel cs.length (rest.drop run.length)) = _
  rw [h]
  dsimp only
  rw [if_neg hrun, findUrlsFuel_eq]
  simp only [List.length_drop, List.length_cons]
  omega

/-- Boolean prefix is transitive. -/
theorem isPrefixOf_trans {p q s : List Char} (h1 : p.isPrefixOf q = true)
    (h2 : q.isPrefixOf s = true) : p.isPrefixOf s = true :=
  List.isPrefixOf_iff_prefix.mpr
    ((List.isPrefixOf_iff_prefix.mp h1).trans (List.isPrefixOf_iff_prefix.mp h2))

/-- A prefix of `x` is a prefix of `x ++ y`. -/
theorem isPrefixOf_append_right {p x : List Char} (y : List Char)
    (h : p.isPrefixOf x = true) : p.isPrefixOf (x ++ y) = true :=
  List.isPrefixOf_iff_prefix.mpr
    ((List.isPrefixOf_iff_prefix.mp h).trans (List.prefix_append x y))

/-- An occurrence of `q` yields an occurrence of any prefix of `q`. -/
theorem infixB_mono {p q : List Char} (hpq : p.isPrefixOf q = true) :
    ∀ {w : List Char}, infixB q w = true → infixB p w = true := by
  intro w
  induction w with
  | nil =>
    intro h
    simp only [infixB, List.isEmpty_iff] at h ⊢
    subst h
    cases p with
    | nil => rfl
    | cons a p' => simp [List.isPrefixOf] at hpq
  | cons c cs ih =>
    intro h
    simp only [infixB, Bool.or_eq_true] at h ⊢
    rcases h with h | h
    · exact Or.inl (isPrefixOf_trans hpq h)
    · exact Or.inr (ih h)

/-- A prefix of a word ending at a space boundary cannot use the space:
if `p` has no space and `y` is empty or starts with one, a prefix of
`x ++ y` is a prefix of `x`. -/
theorem isPrefixOf_of_sep {p : List Char} (hsp : ' ' ∉ p) :
    ∀ (x y : List Char), (y = [] ∨ ∃ y', y = ' ' :: y') →
      p.isPrefixOf (x ++ y) = true → p.isPrefixOf x = true := by
  induction p with
  | nil => intro x y _ _; cases x <;> rfl
  | cons a p' ih =>
    intro x y hy h
    cases x with
    | nil =>
      exfalso
      rcases hy with rfl | ⟨y', rfl⟩
      · simp [List.isPrefixOf] at h
      · simp only [List.nil_append, List.isPrefixOf, Bool.and_eq_true, beq_iff_eq] at h
        exact hsp (h.1 ▸ List.mem_cons_self a p')
    | cons b x' =>
      simp only [List.cons_append, List.isPrefixOf, Bool.and_eq_true] at h ⊢
      exact ⟨h.1, ih (fun hm => hsp (List.mem_cons_of_mem a hm)) x' y hy h.2⟩

/-- A prefix of a suffix is an infix. -/
theorem infixB_of_prefix_drop {p : List Char} :
    ∀ (k : Nat) (w : List Char), p.isPrefixOf (w.drop k) = true →
      infixB p w = true := by
  intro k
  induction k with
  | zero =>
    intro w h
    cases w with
    | nil =>
      simp only [List.drop_nil] at h
      cases p with
      | nil => rfl
      | cons a p' => simp [List.isPrefixOf] at h
    | cons c cs => simp only [infixB, Bool.or_eq_true]; exact Or.inl h
  | succ k ih =>
    intro w h
    cases w with
    | nil =>
      simp only [List.drop_nil] at h
      cases p with
      | nil => rfl
      | cons a p' => simp [List.isPrefixOf] at h
    | cons c cs =>
      simp only [infixB, Bool.or_eq_true]
      exact Or.inr (ih cs h)

/-- A scheme match begins with the literal `http`. -/
theorem schemeLen_http {s : List Char} (h : schemeLenAt s ≠ 0) :
    "http".data.isPrefixOf s = true := by
  unfold schemeLenAt at h
  by_cases h8 : "https://".data.isPrefixOf s = true
  · exact isPrefixOf_trans (by decide) h8
  · rw [if_neg h8] at h
    by_cases h7 : "http://".data.isPrefixOf s = true
    · exact isPrefixOf_trans (by decide) h7
    · rw [if_neg h7] at h
      exact absurd rfl h

/-- Prefixes agree with the list at every index they cover. -/
theorem getElem?_of_isPrefix {p s : List Char} (h : p <+: s) (i : Nat)
    (hi : i < p.length) : s[i]? = p[i]? := by
  obtain ⟨t, rfl⟩ := h
  exact List.getElem?_append_left hi

/-- The scheme matched at the head of a word is unchanged by appending. -/
theorem schemeLenAt_append {w : List Char} (y : List Char) (k : Nat)
    (h : schemeLenAt w = k + 1) : schemeLenAt (w ++ y) = k + 1 := by
  unfold schemeLenAt at h ⊢
  by_cases h8 : "https://".data.isPrefixOf w = true
  · rw [if_pos h8] at h
    rw [if_pos (isPrefixOf_append_right y h8)]
    exact h
  · rw [if_neg h8] at h
    by_cases h7 : "http://".data.isPrefixOf w = true
    · rw [if_pos h7] at h
      have h8' : ¬ "https://".data.isPrefixOf (w ++ y) = true := by
        intro hc
        have hp7 := List.isPrefixOf_iff_prefix.mp h7
        have hp8 := List.isPrefixOf_iff_prefix.mp hc
        have hlen : 4 < "http://".data.length := by decide
        have e1 : w[4]? = some ':' := by
          rw [getElem?_of_isPrefix hp7 4 hlen]
          decide
        have e2 : (w ++ y)[4]? = some 's' := by
          rw [getElem?_of_isPrefix hp8 4 (by decide)]
          decide
        have e3 : (w ++ y)[4]? = w[4]? :=
          List.getElem?_append_left (Nat.lt_of_lt_of_le hlen hp7.length_le)
        rw [e3, e1] at e2
        exact absurd e2 (by decide)
      rw [if_neg h8', if_pos (isPrefixOf_append_right y h7)]
      exact h
    · rw [if_neg h7] at h
      exact absurd h.symm (Nat.succ_ne_zero k)

/-- `takeWhile` passes over a block that wholly satisfies the predicate. -/
theorem takeWhile_append_all {p : Char → Bool} :
    ∀ {w : List Char}, w.all p = true → ∀ y,
      (w ++ y).takeWhile p = w ++ y.takeWhile p := by
  intro w
  induction w with
  | nil => intro _ y; rfl
  | cons c cs ih =>
    intro h y
    simp only [List.all_cons, Bool.and_eq_true] at h
    simp only [List.cons_append, List.takeWhile_cons, h.1, if_true, ih h.2 y]

/-- Unpacking a URL-shaped word. -/
theorem urlWordB_elim {w : List Char} (h : urlWordB w = true) :
    ∃ k0, schemeLenAt w = k0 + 1 ∧ w.drop (k0 + 1) ≠ [] ∧
      (w.drop (k0 + 1)).all urlChar = true := by
  unfold urlWordB at h
  cases hk : schemeLenAt w with
  | zero => rw [hk] at h; cases h
  | succ k0 =>
    rw [hk] at h
    simp only [Bool.and_eq_true, Bool.not_eq_true', List.isEmpty_eq_false] at h
    exact ⟨k0, rfl, h.1, h.2⟩

/-- The scheme's length is bounded by the word. -/
theorem schemeLen_le {w : List Char} {k : Nat} (h : schemeLenAt w = k + 1) :
    k + 1 ≤ w.length := by
  unfold schemeLenAt at h
  by_cases h8 : "https://".data.isPrefixOf w = true
  · rw [if_pos h8] at h
    have := (List.isPrefixOf_iff_prefix.mp h8).length_le
    simp only [List.length] at this
    omega
  · rw [if_neg h8] at h
    by_cases h7 : "http://".data.isPrefixOf w = true
    · rw [if_pos h7] at h
      have := (List.isPrefixOf_iff_prefix.mp h7).length_le
      simp only [List.length] at this
      omega
    · rw [if_neg h7] at h
      exact absurd h.symm (Nat.succ_ne_zero k)

/-- No URL-shaped word contains a space. -/
theorem urlWord_no_space {w : List Char} (h : urlWordB w = true) : ' ' ∉ w := by
  obtain ⟨k0, hk, _hne, hall⟩ := urlWordB_elim h
  intro hmem
  rw [← List.take_append_drop (k0 + 1) w, List.mem_append] at hmem
  rcases hmem with hmem | hmem
  · unfold schemeLenAt at hk
    by_cases h8 : "https://".data.isPrefixOf w = true
    · rw [if_pos h8] at hk
      obtain ⟨t, rfl⟩ := List.isPrefixOf_iff_prefix.mp h8
      rw [show k0 + 1 = ("https://".data).length from by
            simp only [List.length]; omega,
          List.take_left] at hmem
      exact absurd hmem (by decide)
    · rw [if_neg h8] at hk
      by_cases h7 : "http://".data.isPrefixOf w = true
      · rw [if_pos h7] at hk
        obtain ⟨t, rfl⟩ := List.isPrefixOf_iff_prefix.mp h7
        rw [show k0 + 1 = ("http://".data).length from by
              simp only [List.length]; omega,
            List.take_left] at hmem
        exact absurd hmem (by decide)
      · rw [if_neg h7] at hk
        exact absurd hk.symm (Nat.succ_ne_zero k0)
  · have := List.all_eq_true.mp hall ' ' hmem
    exact absurd this (by decide)

/-- Every URL-shaped word contains `http`; hence no word is both
URL-shaped and `http`-free. -/
theorem urlWord_http {w : List Char} (h : urlWordB w = true) :
    infixB "http".data w = true := by
  obtain ⟨k0, hk, -, -⟩ := urlWordB_elim h
  exact infixB_of_prefix_drop 0 w (schemeLen_http (hk ▸ Nat.succ_ne_zero k0))

/-- URL-shaped words are non-empty. -/
theorem urlWord_ne_nil {w : List Char} (h : urlWordB w = true) : w ≠ [] := by
  obtain ⟨k0, hk, -, -⟩ := urlWordB_elim h
  have := schemeLen_le hk
  intro hw
  subst hw
  simp at this

/-- Replacing a string by `r` inside itself gives `r`. -/
theorem replaceL_self {u : List Char} (r : List Char) (hu : u ≠ []) :
    replaceL u u r = r := by
  cases u with
  | nil => exact absurd rfl hu
  | cons o os =>
    rw [replaceL_cons_pos o os os r o
      (List.isPrefixOf_iff_prefix.mpr (List.prefix_refl _))]
    rw [List.drop_length]
    show r ++ replaceFuel 0 [] (o :: os) r = r
    rw [show replaceFuel 0 [] (o :: os) r = [] from rfl, List.append_nil]

/-- A pattern that does not occur leaves the subject unchanged. -/
theorem replaceL_of_not_infix {u w r : List Char} (h : infixB u w = false) :
    replaceL w u r = w := by
  cases u with
  | nil =>
    cases w with
    | nil => rfl
    | cons c cs => simp [infixB, List.isPrefixOf] at h
  | cons o os =>
    induction w with
    | nil => rfl
    | cons c cs ih =>
      simp only [infixB, Bool.or_eq_false_iff] at h
      rw [replaceL_cons_neg c cs os r o (by rw [h.1]; exact Bool.false_ne_true),
        ih h.2]

/-- A short prefix of an append is a prefix of the first part. -/
theorem prefix_of_append_of_le {u X W : List Char} (h : u <+: X ++ W)
    (hlen : u.length ≤ X.length) : u <+: X := by
  have := List.prefix_iff_eq_take.mp h
  rw [List.take_append_of_le_length hlen] at this
  rw [this]
  exact List.take_prefix _ _

/-- A prefix overrunning the first part of `z ++ ' ' :: y` contains the
space. -/
theorem mem_space_of_overrun :
    ∀ (z : List Char) {u y : List Char}, u <+: z ++ ' ' :: y →
      z.length < u.length → ' ' ∈ u := by
  intro z
  induction z with
  | nil =>
    intro u y h hlen
    cases u with
    | nil => simp at hlen
    | cons a u' =>
      obtain ⟨t, ht⟩ := h
      simp only [List.nil_append, List.cons_append] at ht
      have : a = ' ' := (List.cons.injEq _ _ _ _ ▸ ht).1
      rw [this]
      exact List.mem_cons_self _ _
  | cons b z' ih =>
    intro u y h hlen
    cases u with
    | nil => simp at hlen
    | cons a u' =>
      obtain ⟨t, ht⟩ := h
      simp only [List.cons_append] at ht
      have h1 : a = b := (List.cons.injEq _ _ _ _ ▸ ht).1
      have h2 : u' ++ t = z' ++ ' ' :: y := (List.cons.injEq _ _ _ _ ▸ ht).2
      have : ' ' ∈ u' := by
        refine ih ⟨t, h2⟩ ?_
        simp only [List.length_cons] at hlen
        omega
      exact List.mem_cons_of_mem a this

/-- A space-free pattern never matches across a space: replacement
distributes over the two sides of the separator. -/
theorem replaceL_append_sep {u : List Char} (r : List Char) (hu : u ≠ [])
    (hsp : ' ' ∉ u) :
    ∀ x y, replaceL (x ++ ' ' :: y) u r =
      replaceL x u r ++ ' ' :: replaceL y u r := by
  obtain ⟨o, os, rfl⟩ : ∃ o os, u = o :: os := by
    cases u with
    | nil => exact absurd rfl hu
    | cons o os => exact ⟨o, os, rfl⟩
  have key : ∀ (n : Nat) (x y : List Char), x.length ≤ n →
      replaceL (x ++ ' ' :: y) (o :: os) r =
        replaceL x (o :: os) r ++ ' ' :: replaceL y (o :: os) r := by
    intro n
    induction n with
    | zero =>
      intro x y hx
      have : x = [] := List.eq_nil_of_length_eq_zero (Nat.le_zero.mp hx)
      subst this
      have hnp : ¬ (o :: os).isPrefixOf (' ' :: y) = true := by
        intro hc
        simp only [List.isPrefixOf, Bool.and_eq_true, beq_iff_eq] at hc
        exact hsp (hc.1 ▸ List.mem_cons_self o os)
      rw [List.nil_append, replaceL_cons_neg ' ' y os r o hnp]
      rfl
    | succ n ih =>
      intro x y hx
      cases x with
      | nil =>
        have hnp : ¬ (o :: os).isPrefixOf (' ' :: y) = true := by
          intro hc
          simp only [List.isPrefixOf, Bool.and_eq_true, beq_iff_eq] at hc
          exact hsp (hc.1 ▸ List.mem_cons_self o os)
        rw [List.nil_append, replaceL_cons_neg ' ' y os r o hnp]
        rfl
      | cons c x' =>
        by_cases hp : (o :: os).isPrefixOf (c :: x' ++ ' ' :: y) = true
        · have hlen : (o :: os).length ≤ (c :: x').length := by
            by_contra hlong
            exact hsp (mem_space_of_overrun (c :: x')
              (List.isPrefixOf_iff_prefix.mp hp) (Nat.lt_of_not_le hlong))
          have hpx : (o :: os).isPrefixOf (c :: x') = true :=
            List.isPrefixOf_iff_prefix.mpr
              (prefix_of_append_of_le (List.isPrefixOf_iff_prefix.mp hp) hlen)
          simp only [List.cons_append] at hp ⊢
          rw [replaceL_cons_pos c (x' ++ ' ' :: y) os r o hp,
            replaceL_cons_pos c x' os r o hpx]
          rw [show (c : Char) :: (x' ++ ' ' :: y) = (c :: x') ++ ' ' :: y from rfl,
            List.drop_append_of_le_length hlen]
          rw [ih ((c :: x').drop (o :: os).length) y
            (by simp only [List.length_drop, List.length_cons] at hx ⊢; omega)]
          simp [List.append_assoc]
        · have hpx : ¬ (o :: os).isPrefixOf (c :: x') = true := by
            intro hc
            exact hp (isPrefixOf_append_right (' ' :: y) hc)
          simp only [List.cons_append] at hp ⊢
          rw [replaceL_cons_neg c (x' ++ ' ' :: y) os r o hp,
            replaceL_cons_neg c x' os r o hpx]
          rw [ih x' y (by simp only [List.length_cons] at hx; omega)]
          rfl
  intro x y
  exact key x.length x y (Nat.le_refl _)

/-- Replacement with a space-free pattern acts word by word. -/
theorem replaceL_joinWords {u : List Char} (r : List Char) (hu : u ≠ [])
    (hsp : ' ' ∉ u) :
    ∀ xs : List (List Char),
      replaceL (joinWords xs) u r = joinWords (xs.map (fun x => replaceL x u r)) := by
  intro xs
  induction xs with
  | nil =>
    show replaceL [] u r = []
    cases u <;> rfl
  | cons x xs ih =>
    cases xs with
    | nil => rfl
    | cons x2 xs2 =>
      show replaceL (x ++ ' ' :: joinWords (x2 :: xs2)) u r = _
      rw [replaceL_append_sep r hu hsp, ih]
      rfl

/-- The scanner skips any block none of whose positions starts a scheme. -/
theorem findUrls_skip :
    ∀ (x y : List Char), (∀ k, k < x.length → schemeLenAt (x.drop k ++ y) = 0) →
      findUrls (x ++ y) = findUrls y := by
  intro x
  induction x with
  | nil => intro y _; rw [List.nil_append]
  | cons c x' ih =>
    intro y h
    have h0 : schemeLenAt (c :: (x' ++ y)) = 0 := by
      have := h 0 (Nat.succ_pos _)
      simpa using this
    rw [List.cons_append, findUrls_cons_zero c (x' ++ y) h0]
    exact ih y (fun k hk => by
      have := h (k + 1) (by simpa using Nat.succ_lt_succ hk)
      simpa using this)

/-- No position of an `http`-free word followed by a space boundary starts
a scheme. -/
theorem schemeLen_zero_of_httpFree {w : List Char}
    (hfree : infixB "http".data w = false) (y : List Char) :
    ∀ k, k < (w ++ [' ']).length → schemeLenAt ((w ++ [' ']).drop k ++ y) = 0 := by
  intro k hk
  by_contra hne
  have hd : (w ++ [' ']).drop k ++ y = w.drop k ++ ' ' :: y := by
    have hkw : k ≤ w.length := by
      simp only [List.length_append, List.length] at hk
      omega
    rw [List.drop_append_of_le_length hkw, List.append_assoc]
    rfl
  rw [hd] at hne
  have hp : "http".data.isPrefixOf (w.drop k ++ ' ' :: y) = true :=
    schemeLen_http hne
  have hpw : "http".data.isPrefixOf (w.drop k) = true :=
    isPrefixOf_of_sep (by decide) (w.drop k) (' ' :: y) (Or.inr ⟨y, rfl⟩) hp
  have : infixB "http".data w = true := infixB_of_prefix_drop k w hpw
  rw [hfree] at this
  exact Bool.false_ne_true this

/-- A space at the head is skipped by the scanner. -/
theorem findUrls_space (y : List Char) : findUrls (' ' :: y) = findUrls y :=
  findUrls_cons_zero ' ' y rfl

/-- A URL-shaped word followed by nothing or a space boundary is matched
whole, and scanning continues after it. -/
theorem findUrls_urlWord {w : List Char} (hw : urlWordB w = true)
    (y : List Char) (hy : y = [] ∨ ∃ y', y = ' ' :: y') :
    findUrls (w ++ y) = w :: findUrls y := by
  obtain ⟨k0, hk, hne, hall⟩ := urlWordB_elim hw
  have hklen : k0 + 1 ≤ w.length := schemeLen_le hk
  obtain ⟨c, cs, rfl⟩ : ∃ c cs, w = c :: cs := by
    cases w with
    | nil => simp at hklen
    | cons c cs => exact ⟨c, cs, rfl⟩
  have hka : schemeLenAt ((c :: cs) ++ y) = k0 + 1 := schemeLenAt_append y k0 hk
  rw [List.cons_append] at hka ⊢
  have hdrop : (c :: (cs ++ y)).drop (k0 + 1) = (c :: cs).drop (k0 + 1) ++ y := by
    rw [show (c : Char) :: (cs ++ y) = (c :: cs) ++ y from rfl,
      List.drop_append_of_le_length hklen]
  have hyt : y.takeWhile urlChar = [] := by
    rcases hy with rfl | ⟨y', rfl⟩
    · rfl
    · rw [List.takeWhile_cons]
      simp [show urlChar ' ' = false from rfl]
  have hrun : ((c :: (cs ++ y)).drop (k0 + 1)).takeWhile urlChar =
      (c :: cs).drop (k0 + 1) := by
    rw [hdrop, takeWhile_append_all hall y, hyt, List.append_nil]
  have hrunne : ¬ (((c :: (cs ++ y)).drop (k0 + 1)).takeWhile urlChar).isEmpty = true := by
    rw [hrun]
    simpa [List.isEmpty_iff] using hne
  rw [findUrls_cons_pos c (cs ++ y) k0 hka hrunne]
  congr 1
  · rw [hrun, show (c : Char) :: (cs ++ y) = (c :: cs) ++ y from rfl,
      List.take_append_of_le_length hklen, List.take_append_drop]
  · rw [hrun, hdrop, List.drop_left]

/-- `findUrls` over space-joined words is exactly the URL-shaped words. -/
theorem findUrls_joinWords :
    ∀ ws : List (List Char),
      (∀ w ∈ ws, urlWordB w = true ∨ infixB "http".data w = false) →
      findUrls (joinWords ws) = ws.filter urlWordB := by
  intro ws
  induction ws with
  | nil => intro _; rfl
  | cons w ws ih =>
    intro h
    have hw := h w (List.mem_cons_self w ws)
    have hws := fun v hv => h v (List.mem_cons_of_mem w hv)
    cases ws with
    | nil =>
      show findUrls w = (w :: []).filter urlWordB
      by_cases hu : urlWordB w = true
      · rw [List.filter_cons_of_pos hu]
        have h1 : findUrls (w ++ []) = w :: findUrls [] :=
          findUrls_urlWord hu [] (Or.inl rfl)
        rw [List.append_nil] at h1
        exact h1
      · have hfree : infixB "http".data w = false := by
          rcases hw with hw | hw
          · exact absurd hw hu
          · exact hw
        rw [List.filter_cons_of_neg hu]
        have hz : ∀ k, k < w.length → schemeLenAt (w.drop k ++ []) = 0 := by
          intro k hk
          by_contra hne
          rw [List.append_nil] at hne
          have hp := schemeLen_http hne
          have hinf := infixB_of_prefix_drop k w hp
          rw [hfree] at hinf
          exact Bool.false_ne_true hinf
        have hskip := findUrls_skip w [] hz
        rw [List.append_nil] at hskip
        exact hskip
    | cons w2 ws2 =>
      show findUrls (w ++ ' ' :: joinWords (w2 :: ws2)) = _
      by_cases hu : urlWordB w = true
      · rw [findUrls_urlWord hu _ (Or.inr ⟨joinWords (w2 :: ws2), rfl⟩),
          List.filter_cons_of_pos hu, findUrls_space, ih hws]
      · have hfree : infixB "http".data w = false := by
          rcases hw with hw | hw
          · exact absurd hw hu
          · exact hw
        have hx : w ++ ' ' :: joinWords (w2 :: ws2) =
            (w ++ [' ']) ++ joinWords (w2 :: ws2) := by
          rw [List.append_assoc]
          rfl
        rw [hx, findUrls_skip (w ++ [' ']) _
            (schemeLen_zero_of_httpFree hfree _),
          List.filter_cons_of_neg hu, ih hws]

/-- A verified URL leaves the answer untouched. -/
theorem sanitizeStep_verified (V : List String) (ans u : List Char)
    (h : V.contains (normalizeUrl u) = true) : sanitizeStep V ans u = ans := by
  unfold normalizeUrl at h
  unfold sanitizeStep
  dsimp only
  rw [if_pos h]

/-- An unverified URL is replaced, everywhere, by its resolution. -/
theorem sanitizeStep_unverified (V : List String) (ans u : List Char)
    (h : V.contains (normalizeUrl u) = false) :
    sanitizeStep V ans u = replaceL ans u (resolveUrl V u) := by
  unfold normalizeUrl at h
  unfold sanitizeStep resolveUrl normalizeUrl
  dsimp only
  rw [if_neg (by rw [h]; exact Bool.false_ne_true),
    if_neg (by rw [h]; exact Bool.false_ne_true)]
  cases hf : V.find? (fun v => (pyUrlparse v).netloc =
      (pyUrlparse (clean_url (String.mk (pyRstrip u ".,;!?)".data)) true)).netloc) with
  | none => rfl
  | some r => rfl

/-- A verified URL resolves to itself. -/
theorem resolveUrl_verified (V : List String) (u : List Char)
    (h : V.contains (normalizeUrl u) = true) : resolveUrl V u = u := by
  unfold resolveUrl
  dsimp only
  rw [if_pos h]

/-- An unverified URL resolves to a verified URL or to the marker. -/
theorem resolveUrl_unverified_cases (V : List String) (u : List Char)
    (h : V.contains (normalizeUrl u) = false) :
    (∃ v ∈ V, resolveUrl V u = v.data) ∨ resolveUrl V u = REMOVED_MARKER.data := by
  unfold resolveUrl
  dsimp only
  rw [if_neg (by rw [h]; exact Bool.false_ne_true)]
  cases hf : V.find? (fun v => (pyUrlparse v).netloc =
      (pyUrlparse (normalizeUrl u)).netloc) with
  | none => exact Or.inr rfl
  | some r => exact Or.inl ⟨r, List.mem_of_find?_eq_some hf, rfl⟩

/-- A word starting with `http` does not occur in an `http`-free string. -/
theorem infixB_false_of_httpFree {u m : List Char}
    (hm : infixB "http".data m = false)
    (hp : "http".data.isPrefixOf u = true) : infixB u m = false := by
  cases hb : infixB u m with
  | false => rfl
  | true =>
    have := infixB_mono hp hb
    rw [hm] at this
    exact absurd this Bool.false_ne_true

/-- The URL-removal marker contains no `http`. -/
theorem marker_httpFree : infixB "http".data REMOVED_MARKER.data = false := by
  decide

/-- Processing one unverified or verified URL rewrites the word list
pointwise. -/
theorem step_word (V : List String) (ws : List (List Char))
    (hword : ∀ w ∈ ws, urlWordB w = true ∨ infixB "http".data w = false)
    (hpair : ∀ w ∈ ws, ∀ w' ∈ ws, urlWordB w = true → urlWordB w' = true →
      w ≠ w' → infixB w w' = false)
    (hUV : ∀ w ∈ ws, urlWordB w = true → V.contains (normalizeUrl w) = false →
      ∀ v ∈ V, infixB w v.data = false)
    (us₁ : List (List Char)) (u : List Char)
    (hu : u ∈ ws) (huw : urlWordB u = true)
    (hus₁ : ∀ x ∈ us₁, urlWordB x = true) :
    sanitizeStep V (joinWords (ws.map (wordAfter V us₁))) u =
      joinWords (ws.map (wordAfter V (us₁ ++ [u]))) := by
  by_cases hc : V.contains (normalizeUrl u) = true
  · rw [sanitizeStep_verified V _ u hc]
    congr 1
    apply List.map_congr_left
    intro w _hw
    unfold wordAfter
    by_cases h1 : w ∈ us₁
    · rw [if_pos h1, if_pos (List.mem_append_left _ h1)]
    · by_cases h2 : w = u
      · subst h2
        rw [if_neg h1,
          if_pos (List.mem_append_right _ (List.mem_singleton.mpr rfl)),
          resolveUrl_verified V w hc]
      · rw [if_neg h1, if_neg (fun hmem => by
          rcases List.mem_append.mp hmem with hmem | hmem
          · exact h1 hmem
          · exact h2 (List.mem_singleton.mp hmem))]
  · have hcf : V.contains (normalizeUrl u) = false := by
      cases hb : V.contains (normalizeUrl u) with
      | false => rfl
      | true => exact absurd hb hc
    rw [sanitizeStep_unverified V _ u hcf,
      replaceL_joinWords (resolveUrl V u) (urlWord_ne_nil huw)
        (urlWord_no_space huw) (ws.map (wordAfter V us₁)),
      List.map_map]
    congr 1
    apply List.map_congr_left
    intro w hw
    show replaceL (wordAfter V us₁ w) u (resolveUrl V u) =
      wordAfter V (us₁ ++ [u]) w
    unfold wordAfter
    by_cases h1 : w ∈ us₁
    · rw [if_pos h1, if_pos (List.mem_append_left _ h1)]
      by_cases hcw : V.contains (normalizeUrl w) = true
      · rw [resolveUrl_verified V w hcw]
        have hne : u ≠ w := by
          intro he
          rw [he] at hcf
          rw [hcf] at hcw
          exact Bool.false_ne_true hcw
        exact replaceL_of_not_infix
          (hpair u hu w hw huw (hus₁ w h1) hne)
      · have hcwf : V.contains (normalizeUrl w) = false := by
          cases hb : V.contains (normalizeUrl w) with
          | false => rfl
          | true => exact absurd hb hcw
        rcases resolveUrl_unverified_cases V w hcwf with ⟨v, hv, hr⟩ | hr
        · rw [hr]
          exact replaceL_of_not_infix (hUV u hu huw hcf v hv)
        · rw [hr]
          exact replaceL_of_not_infix (infixB_false_of_httpFree marker_httpFree
            (schemeLen_http (by
              obtain ⟨k0, hk, -, -⟩ := urlWordB_elim huw
              rw [hk]
              exact Nat.succ_ne_zero k0)))
    · by_cases h2 : w = u
      · subst h2
        rw [if_neg h1,
          if_pos (List.mem_append_right _ (List.mem_singleton.mpr rfl))]
        exact replaceL_self (resolveUrl V w) (urlWord_ne_nil huw)
      · rw [if_neg h1, if_neg (fun hmem => by
          rcases List.mem_append.mp hmem with hmem | hmem
          · exact h1 hmem
          · exact h2 (List.mem_singleton.mp hmem))]
        rcases hword w hw with hww | hwf
        · exact replaceL_of_not_infix (hpair u hu w hw huw hww (fun he => h2 he.symm))
        · exact replaceL_of_not_infix (infixB_false_of_httpFree hwf
            (schemeLen_http (by
              obtain ⟨k0, hk, -, -⟩ := urlWordB_elim huw
              rw [hk]
              exact Nat.succ_ne_zero k0)))

/-- The sanitizer's whole rewrite loop, word by word. -/
theorem fold_words (V : List String) (ws : List (List Char))
    (hword : ∀ w ∈ ws, urlWordB w = true ∨ infixB "http".data w = false)
    (hpair : ∀ w ∈ ws, ∀ w' ∈ ws, urlWordB w = true → urlWordB w' = true →
      w ≠ w' → infixB w w' = false)
    (hUV : ∀ w ∈ ws, urlWordB w = true → V.contains (normalizeUrl w) = false →
      ∀ v ∈ V, infixB w v.data = false) :
    ∀ (us₂ us₁ : List (List Char)),
      (∀ u ∈ us₂, u ∈ ws ∧ urlWordB u = true) →
      (∀ u ∈ us₁, urlWordB u = true) →
      us₂.foldl (sanitizeStep V) (joinWords (ws.map (wordAfter V us₁))) =
        joinWords (ws.map (wordAfter V (us₁ ++ us₂))) := by
  intro us₂
  induction us₂ with
  | nil =>
    intro us₁ _ _
    rw [List.append_nil]
    rfl
  | cons u us₂ ih =>
    intro us₁ hus₂ hus₁
    have hu := hus₂ u (List.mem_cons_self u us₂)
    simp only [List.foldl_cons]
    rw [step_word V ws hword hpair hUV us₁ u hu.1 hu.2 hus₁,
      ih (us₁ ++ [u]) (fun v hv => hus₂ v (List.mem_cons_of_mem u hv))
        (fun v hv => by
          rcases List.mem_append.mp hv with hv | hv
          · exact hus₁ v hv
          · rw [List.mem_singleton.mp hv]; exact hu.2),
      List.append_assoc, List.singleton_append]

theorem sanitize_unverified_url_counterexample :
    sanitize_output "https://a.com/x https://a.com/xy" ["https://a.com/v"] =
      "https://a.com/v https://a.com/vy" ∧
    (findUrls ("https://a.com/v https://a.com/vy").data).map String.mk =
      ["https://a.com/v", "https://a.com/vy"] ∧
    normalizeUrl "https://a.com/vy".data = "https://a.com/vy" ∧
    (["https://a.com/v"] : List String).contains "https://a.com/vy" = false ∧
    "https://a.com/vy" ≠ REMOVED_MARKER := by
  exact ⟨rfl, by decide, by decide, by decide, by decide⟩

/-- C1 (amended): for a space-separated answer whose words are each either
URL-shaped or `http`-free, with no found URL occurring inside a different
found URL or inside a verified URL, the sanitizer rewrites exactly the
URL-shaped words — each kept when its normalization is verified, else
replaced by the first verified URL on the same netloc, else by the
removal marker — and every URL-shaped substring of the result normalizes
into the verified set.  (The counterexample shows the guarantee fails for
overlapping URLs: `answer.replace(url, repl)` corrupts a longer URL that
extends a replaced one, leaving an unverified URL in the output.) -/
theorem sanitize_output_guarantee (a : String) (V : List String)
    (ws : List (List Char))
    (hws : a.data = joinWords ws)
    (hword : ∀ w ∈ ws, urlWordB w = true ∨ infixB "http".data w = false)
    (hpair : ∀ w ∈ ws, ∀ w' ∈ ws, urlWordB w = true → urlWordB w' = true →
      w ≠ w' → infixB w w' = false)
    (hUV : ∀ w ∈ ws, urlWordB w = true → V.contains (normalizeUrl w) = false →
      ∀ v ∈ V, infixB w v.data = false)
    (hVurl : ∀ v ∈ V, urlWordB v.data = true)
    (hVnorm : ∀ v ∈ V, V.contains (normalizeUrl v.data) = true) :
    sanitize_output a V =
      String.mk (joinWords (ws.map (fun w =>
        if urlWordB w = true then resolveUrl V w else w))) ∧
    ∀ u ∈ findUrls (sanitize_output a V).data,
      V.contains (normalizeUrl u) = true := by
  have hmap0 : ws.map (wordAfter V []) = ws := by
    calc ws.map (wordAfter V []) = ws.map id := by
          apply List.map_congr_left
          intro w _
          unfold wordAfter
          rw [if_neg (List.not_mem_nil w)]
          rfl
      _ = ws := List.map_id ws
  have h1 : sanitize_output a V =
      String.mk (joinWords (ws.map (fun w =>
        if urlWordB w = true then resolveUrl V w else w))) := by
    unfold sanitize_output
    rw [hws, findUrls_joinWords ws hword]
    have hfold := fold_words V ws hword hpair hUV (ws.filter urlWordB) []
      (fun u hu => ⟨(List.mem_filter.mp hu).1, (List.mem_filter.mp hu).2⟩)
      (fun u hu => absurd hu (List.not_mem_nil u))
    rw [hmap0, List.nil_append] at hfold
    rw [hfold]
    congr 1
    congr 1
    apply List.map_congr_left
    intro w hw
    unfold wordAfter
    by_cases hu : urlWordB w = true
    · rw [if_pos (List.mem_filter.mpr ⟨hw, hu⟩), if_pos hu]
    · rw [if_neg (fun hmem => hu (List.mem_filter.mp hmem).2), if_neg hu]
  refine ⟨h1, ?_⟩
  rw [h1]
  have hword' : ∀ w' ∈ ws.map (fun w =>
      if urlWordB w = true then resolveUrl V w else w),
      urlWordB w' = true ∨ infixB "http".data w' = false := by
    intro w' hw'
    obtain ⟨w, hw, rfl⟩ := List.mem_map.mp hw'
    by_cases hu : urlWordB w = true
    · rw [if_pos hu]
      by_cases hcw : V.contains (normalizeUrl w) = true
      · rw [resolveUrl_verified V w hcw]
        exact Or.inl hu
      · have hcwf : V.contains (normalizeUrl w) = false := by
          cases hb : V.contains (normalizeUrl w) with
          | false => rfl
          | true => exact absurd hb hcw
        rcases resolveUrl_unverified_cases V w hcwf with ⟨v, hv, hr⟩ | hr
        · rw [hr]
          exact Or.inl (hVurl v hv)
        · rw [hr]
          exact Or.inr marker_httpFree
    · rw [if_neg hu]
      rcases hword w hw with hww | hwf
      · exact absurd hww hu
      · exact Or.inr hwf
  intro u hu
  rw [show (String.mk (joinWords (ws.map (fun w =>
        if urlWordB w = true then resolveUrl V w else w)))).data =
      joinWords (ws.map (fun w =>
        if urlWordB w = true then resolveUrl V w else w)) from rfl,
    findUrls_joinWords _ hword'] at hu
  have humem := (List.mem_filter.mp hu).1
  have huurl := (List.mem_filter.mp hu).2
  obtain ⟨w, hw, hwe⟩ := List.mem_map.mp humem
  by_cases hwu : urlWordB w = true
  · rw [if_pos hwu] at hwe
    by_cases hcw : V.contains (normalizeUrl w) = true
    · rw [resolveUrl_verified V w hcw] at hwe
      rw [← hwe]
      exact hcw
    · have hcwf : V.contains (normalizeUrl w) = false := by
        cases hb : V.contains (normalizeUrl w) with
        | false => rfl
        | true => exact absurd hb hcw
      rcases resolveUrl_unverified_cases V w hcwf with ⟨v, hv, hr⟩ | hr
      · rw [hr] at hwe
        rw [← hwe]
        have : normalizeUrl v.data = normalizeUrl v.data := rfl
        have hvd : (String.mk v.data) = v := by
          cases v
          rfl
        exact hvd ▸ hVnorm v hv
      · rw [hr] at hwe
        rw [← hwe] at huurl
        exact absurd huurl (by decide)
  · rw [if_neg hwu] at hwe
    rw [hwe] at hwu
    exact absurd huurl hwu

theorem sanitize_output_guarantee_witness :
    ("see https://a.com/x end" : String).data =
      joinWords ["see".data, "https://a.com/x".data, "end".data] ∧
    (∀ u ∈ findUrls (sanitize_output "see https://a.com/x end"
        ["https://a.com/v"]).data,
      (["https://a.com/v"] : List String).contains (normalizeUrl u) = true) :=
  ⟨rfl,
   (sanitize_output_guarantee "see https://a.com/x end" ["https://a.com/v"]
      ["see".data, "https://a.com/x".data, "end".data] rfl
      (by decide) (by decide) (by decide) (by decide) (by decide)).2⟩

theorem sanitize_idempotent_when_resolved_witness :
    (∀ u ∈ findUrls (sanitize_output "see https://a.com/v ok"
        ["https://a.com/v"]).data,
      (["https://a.com/v"] : List String).contains
        (clean_url (String.mk (pyRstrip u ".,;!?)".data)) true) = true) ∧
    sanitize_output (sanitize_output "see https://a.com/v ok"
        ["https://a.com/v"]) ["https://a.com/v"] =
      sanitize_output "see https://a.com/v ok" ["https://a.com/v"] :=
  ⟨by decide,
   sanitize_idempotent_when_resolved "see https://a.com/v ok"
     ["https://a.com/v"] (by decide)⟩

end Agi
